import Mathlib

/-!
Verification of the OTP-gated onboarding / referral-leveling backend.

The definitions below are a shallow embedding of the JavaScript source:
`updateSponsorLevels`, `verifyOTPUser`, `signupUser`, `resendOtp`,
`uploadLicense` and `submitKYC`, over an explicit persistent state
(a list of user records and a list of pending verification sessions).
MongoDB queries become list searches/filters, `doc.save()` becomes an
update-by-id map over the list, and JavaScript control flow becomes
pattern matching.  The recursive upward walk of the leveling engine is
given explicit fuel (the source recurses without a bound).

The `User` mongoose schema itself is not part of the provided sources
(only its callers are); its fields and defaults are modelled from the
spec: `sponsorId` is a required unique referral code generated at
creation, `level` and `kycLevel` default to 0, `sponsorTree` defaults
to the empty list, and a user created by OTP verification is marked
verified.
-/

/-- A persisted `User` document.  Fields mirror the mongoose schema as
used by the controllers; `level` is the referral rank, `sponsorId` the
user's own referral code, `sponsorBy` the code of the referring user,
`sponsorTree` the cached list of directly referred user ids. -/
structure RUser where
  id : Nat
  firstName : String
  lastName : String
  email : String
  phoneNumber : String
  password : String
  gender : String
  country : String
  isVerified : Bool
  kycLevel : Nat
  licenseImage : String
  cnicFront : String
  cnicBack : String
  selfieImage : String
  sponsorId : String
  sponsorBy : String
  sponsorTree : List Nat
  level : Nat
deriving Repr, DecidableEq

/-- A persisted `TempUser` verification-session document
(tempUserModel.js). -/
structure TempUser where
  id : Nat
  email : String
  phoneNumber : String
  tempId : String
  otp : String
  createdAt : Nat
deriving Repr, DecidableEq

/-- The `User` collection. -/
abbrev DB := List RUser

/-- `User.findById`. -/
def findById (st : DB) (i : Nat) : Option RUser :=
  st.find? (fun u => u.id == i)

/-- `User.findOne({sponsorId: c})`. -/
def findOneBySponsorId (st : DB) (c : String) : Option RUser :=
  st.find? (fun u => u.sponsorId == c)

/-- `User.find({sponsorBy: c})`. -/
def childrenOf (st : DB) (c : String) : List RUser :=
  st.filter (fun u => u.sponsorBy == c)

/-- `User.find({level: l, sponsorBy: c})`. -/
def childrenAtLevel (st : DB) (c : String) (l : Nat) : List RUser :=
  st.filter (fun u => u.level == l && u.sponsorBy == c)

/-- `doc.save()`: replace the document with a matching `_id`. -/
def save (st : DB) (u : RUser) : DB :=
  st.map (fun v => if v.id == u.id then u else v)

/-- `user.level = l` on an in-memory document. -/
def setLevel (u : RUser) (l : Nat) : RUser :=
  { u with level := l }

/-- One promotion loop of `updateSponsorLevels`: iterate over a
snapshot of query results, and for each element whose condition holds
in the current state, save the promoted document and bump the counter
(`totalLevelKReferrals += 1`). -/
def refLoop (cond : DB → RUser → Bool) (upd : RUser → RUser) :
    List RUser → DB → Nat → DB × Nat
  | [], st, t => (st, t)
  | r :: rest, st, t =>
    if cond st r then refLoop cond upd rest (save st (upd r)) (t + 1)
    else refLoop cond upd rest st t

/-- Guard of the first promotion loop:
`subReferrals.length >= 3 && referral.level < 2`. -/
def cond2 (st : DB) (r : RUser) : Bool :=
  decide (3 ≤ (childrenOf st r.sponsorId).length) && decide (r.level < 2)

/-- Guard of the second promotion loop:
`subSubReferrals.length >= 3 && level2Referral.level < 3` where the
query filters `{sponsorBy: _, level: 2}`. -/
def cond3 (st : DB) (r : RUser) : Bool :=
  decide (3 ≤ (childrenAtLevel st r.sponsorId 2).length) && decide (r.level < 3)

/-- Guard of the third promotion loop:
`subSubSubReferrals.length >= 3 && level3Referral.level < 4` where the
query filters `{sponsorBy: _, level: 3}`. -/
def cond4 (st : DB) (r : RUser) : Bool :=
  decide (3 ≤ (childrenAtLevel st r.sponsorId 3).length) && decide (r.level < 4)

/-- The first promotion loop (`allReferrals`, promote to level 2) of
one `updateSponsorLevels` call, with its counter. -/
def loop2St (st : DB) (K : String) : DB × Nat :=
  refLoop cond2 (fun r => setLevel r 2) (childrenOf st K) st 0

/-- The second promotion loop (`level3Referrals`, promote to level 3). -/
def loop3St (st2 : DB) (K : String) : DB × Nat :=
  refLoop cond3 (fun r => setLevel r 3) (childrenAtLevel st2 K 2) st2 0

/-- The third promotion loop (`level4Referrals`, promote to level 4). -/
def loop4St (st3 : DB) (K : String) : DB × Nat :=
  refLoop cond4 (fun r => setLevel r 4) (childrenAtLevel st3 K 3) st3 0

/-- The in-memory mutations of the `user` document during one
`updateSponsorLevels` call: the four rank checks in sequence (each
guarded by the respective counter and `user.level < k`) followed by
the cap at 4.  In the source these mutations interleave with the
promotion loops, but the loops never read the `user` document and the
document is only saved at the end, so the chain depends only on the
fetched document and the three counters.  `capLevel` is the final
`if (user.level > 4) user.level = 4`. -/
def capLevel (u : RUser) : RUser :=
  if 4 < u.level then setLevel u 4 else u

/-- See `capLevel`. -/
def frameUser (u0 : RUser) (t2 t3 t4 : Nat) : RUser :=
  let user1 := if 3 ≤ u0.sponsorTree.length ∧ u0.level < 1
    then setLevel u0 1 else u0
  let user2 := if 3 ≤ t2 ∧ user1.level < 2 then setLevel user1 2 else user1
  let user3 := if 3 ≤ t3 ∧ user2.level < 3 then setLevel user2 3 else user2
  let user4 := if 3 ≤ t4 ∧ user3.level < 4 then setLevel user3 4 else user3
  capLevel user4

/-- The body of one call of `updateSponsorLevels` without the final
recursion: fetch the user, run the three promotion loops (each over a
fresh query snapshot, saving promoted referrals as it goes), apply the
rank checks to the in-memory `user` document, cap its level at 4, and
save it.  Returns the new state and the saved in-memory document
(used by the recursion). -/
def frame (st : DB) (userId : Nat) : DB × Option RUser :=
  match findById st userId with
  | none => (st, none)
  | some user0 =>
    let p2 := loop2St st user0.sponsorId
    let p3 := loop3St p2.1 user0.sponsorId
    let p4 := loop4St p3.1 user0.sponsorId
    let user5 := frameUser user0 p2.2 p3.2 p4.2
    (save p4.1 user5, some user5)

/-- `updateSponsorLevels(userId)`: evaluate one frame, then recurse to
the parent sponsor while `user.sponsorBy !== "root"`.  The source uses
unbounded recursion; `fuel` bounds the walk here. -/
def updateSponsorLevels : Nat → DB → Nat → DB
  | 0, st, _ => st
  | fuel + 1, st, userId =>
    match frame st userId with
    | (st1, none) => st1
    | (st1, some user) =>
      if user.sponsorBy ≠ "root" then
        match findOneBySponsorId st1 user.sponsorBy with
        | some parentSponsor => updateSponsorLevels fuel st1 parentSponsor.id
        | none => st1
      else st1

/-- The persistent application state: the `User` collection and the
`TempUser` verification-session collection. -/
structure AppState where
  users : DB
  temps : List TempUser
deriving Repr, DecidableEq

/-- `TempUser.findOne({tempId: t})`. -/
def findTempByTempId (st : AppState) (t : String) : Option TempUser :=
  st.temps.find? (fun s => s.tempId == t)

/-- `TempUser.findOne({email: e})`. -/
def findTempByEmail (st : AppState) (e : String) : Option TempUser :=
  st.temps.find? (fun s => s.email == e)

/-- `TempUser.findByIdAndDelete(id)`. -/
def deleteTemp (st : AppState) (i : Nat) : AppState :=
  { st with temps := st.temps.filter (fun s => s.id != i) }

/-- Outcome of `signupUser`. -/
inductive SignupResult where
  | missingFields
  | otpSent (tempId : String)
deriving Repr, DecidableEq

/-- `signupUser`: validate the seven required fields, then either
overwrite the live session for `email` in place (new `tempId` and
`otp`; the source does not touch `createdAt`) or insert a fresh
session record whose `createdAt` defaults to now.  The generated
`tempId`/`otp` and the fresh record id are parameters (the source
draws them from uuid/Math.random/Mongo). -/
def signupUser (now newRecId : Nat) (newTempId newOtp : String) (st : AppState)
    (firstName lastName email phoneNumber password sponsorBy gender : String) :
    AppState × SignupResult :=
  if firstName = "" ∨ lastName = "" ∨ email = "" ∨ phoneNumber = "" ∨
      password = "" ∨ sponsorBy = "" ∨ gender = "" then
    (st, .missingFields)
  else
    match findTempByEmail st email with
    | some tempUser =>
      let updated := { tempUser with tempId := newTempId, otp := newOtp }
      ({ st with temps := st.temps.map (fun s => if s.id == tempUser.id then updated else s) },
       .otpSent newTempId)
    | none =>
      ({ st with temps := st.temps ++
          [{ id := newRecId, email := email, phoneNumber := phoneNumber,
             tempId := newTempId, otp := newOtp, createdAt := now }] },
       .otpSent newTempId)

/-- The `User.create` call of `verifyOTPUser`: a verified user built
from the request fields and the session's email/phone, with the
schema's modelled defaults (`level = 0`, `kycLevel = 0`, empty
`sponsorTree`, fresh unique `sponsorId`). -/
def mkVerifiedUser (newUserId : Nat)
    (newSponsorId firstName lastName password gender sponsorBy : String)
    (tempUser : TempUser) : RUser :=
  { id := newUserId, firstName := firstName, lastName := lastName,
    email := tempUser.email, phoneNumber := tempUser.phoneNumber,
    password := password, gender := gender, country := "",
    isVerified := true, kycLevel := 0, licenseImage := "",
    cnicFront := "", cnicBack := "", selfieImage := "",
    sponsorId := newSponsorId, sponsorBy := sponsorBy,
    sponsorTree := [], level := 0 }

/-- Outcome of `verifyOTPUser`. -/
inductive VerifyResult where
  | missingFields
  | notFound
  | expired
  | invalidOtp
  | conflict
  | success (userId : Nat)
deriving Repr, DecidableEq

/-- The sponsor update performed by `verifyOTPUser` after creating the
user: look the sponsor up by referral code and, if found, run
`updateSponsorLevels` from it.  The source pushes the new user id onto
the in-memory sponsor document but never saves that document (the
engine refetches the sponsor by id and later saves the refetched,
stale copy), so the database state passed on is unchanged by the push. -/
def triggerLeveling (fuel : Nat) (db : DB) (sponsorBy : String) : DB :=
  match findOneBySponsorId db sponsorBy with
  | some sponsor => updateSponsorLevels fuel db sponsor.id
  | none => db

/-- `verifyOTPUser`: validate fields, find the session by `tempId`,
enforce the 10-minute window (deleting an expired session), match the
OTP, reject when a user with the session's email or phone already
exists, then create the verified user, run the leveling engine from
the sponsor, and delete the session.  `newUserId`/`newSponsorId` are
the identifiers generated at creation. -/
def verifyOTPUser (now fuel newUserId : Nat) (newSponsorId : String) (st : AppState)
    (tempId otp firstName lastName password sponsorBy gender : String) :
    AppState × VerifyResult :=
  if tempId = "" ∨ otp = "" ∨ firstName = "" ∨ lastName = "" ∨
      password = "" ∨ sponsorBy = "" ∨ gender = "" then
    (st, .missingFields)
  else
    match findTempByTempId st tempId with
    | none => (st, .notFound)
    | some tempUser =>
      if tempUser.createdAt + 10 * 60 * 1000 < now then
        (deleteTemp st tempUser.id, .expired)
      else if tempUser.otp ≠ otp then
        (st, .invalidOtp)
      else if st.users.any (fun u => u.email == tempUser.email ||
          u.phoneNumber == tempUser.phoneNumber) then
        (st, .conflict)
      else
        let newUser := mkVerifiedUser newUserId newSponsorId firstName lastName
          password gender sponsorBy tempUser
        let afterLeveling := triggerLeveling fuel (st.users ++ [newUser]) sponsorBy
        (deleteTemp { users := afterLeveling, temps := st.temps } tempUser.id,
         .success newUserId)

/-- Outcome of `resendOtp`. -/
inductive ResendResult where
  | missingTempId
  | notFound
  | referenceError
deriving Repr, DecidableEq

/-- `resendOtp`: find the session by `tempId`, regenerate the OTP in
place (leaving `createdAt` untouched), then build the notification
email.  The email body interpolates `firstName`/`lastName`, which are
not bound anywhere in the module scope of the source, so the call
throws a ReferenceError after the new OTP has been persisted; no email
is dispatched and the handler reports a server error. -/
def resendOtp (st : AppState) (tempId newOtp : String) : AppState × ResendResult :=
  if tempId = "" then
    (st, .missingTempId)
  else
    match findTempByTempId st tempId with
    | none => (st, .notFound)
    | some tempUser =>
      ({ st with temps := st.temps.map (fun s =>
          if s.id == tempUser.id then { tempUser with otp := newOtp } else s) },
       .referenceError)

/-- Outcome of `uploadLicense`. -/
inductive LicenseResult where
  | notFound
  | permissionDenied
  | missingImage
  | jwtReferenceError
deriving Repr, DecidableEq

/-- `uploadLicense` (drivers controller): reject unknown users, gate on
`kycLevel >= 1`, require the license artifact, then set
`kycLevel = 2` and store the uploaded URL and save.  The module never
imports `jwt`, so the subsequent `jwt.sign` throws a ReferenceError,
caught by the handler and reported as a 500 — after the user document
has already been saved. -/
def uploadLicense (db : DB) (userId : Nat) (licenseImage : Option String) :
    DB × LicenseResult :=
  match findById db userId with
  | none => (db, .notFound)
  | some user =>
    if user.kycLevel < 1 then (db, .permissionDenied)
    else
      match licenseImage with
      | none => (db, .missingImage)
      | some url =>
        (save db { user with kycLevel := 2, licenseImage := url }, .jwtReferenceError)

/-- Outcome of `submitKYC`. -/
inductive KycResult where
  | missingFields
  | nameInvalid
  | notFound
  | ok
deriving Repr, DecidableEq

/-- Split a character list at each space, keeping empty segments
(the behavior of the JavaScript `String.prototype.split(" ")`). -/
def splitSpaces (cur : List Char) : List Char → List (List Char)
  | [] => [cur.reverse]
  | c :: cs =>
    if c = ' ' then cur.reverse :: splitSpaces [] cs
    else splitSpaces (c :: cur) cs

/-- `fullName.split(" ").filter(Boolean)`. -/
def splitFullName (fullName : String) : List String :=
  ((splitSpaces [] fullName.toList).map (fun cs => String.mk cs)).filter
    (fun s => s ≠ "")

/-- `submitKYC` (part_000): validate required fields (gender is not
required), split the full name on spaces discarding empty tokens, take
the first two tokens as first/last name (rejecting names without both),
look the user up, upload the three artifacts, and save the user with
the new identity fields and `kycLevel = 1`.  Uploaded URLs are modelled
as the submitted artifact strings (the storage collaborator is
external). -/
def submitKYC (db : DB) (userId : Nat) (fullName country gender : String)
    (frontImage backImage selfieImage : Option String) : DB × KycResult :=
  if fullName = "" ∨ country = "" ∨ frontImage = none ∨ backImage = none ∨
      selfieImage = none then
    (db, .missingFields)
  else
    let tokens := splitFullName fullName
    match tokens.head?, tokens[1]? with
    | some firstName, some lastName =>
      match findById db userId with
      | none => (db, .notFound)
      | some user =>
        (save db { user with
            firstName := firstName, lastName := lastName,
            country := country, gender := gender,
            cnicFront := frontImage.getD "", cnicBack := backImage.getD "",
            selfieImage := selfieImage.getD "", kycLevel := 1 }, .ok)
    | _, _ => (db, .nameInvalid)

/-- A plain user record with the given referral data and defaults
everywhere else (used to build concrete network states). -/
def mkNode (i : Nat) (sid sby : String) (tree : List Nat) (lvl : Nat) : RUser :=
  { id := i, firstName := "", lastName := "", email := "", phoneNumber := "",
    password := "", gender := "", country := "", isVerified := true,
    kycLevel := 0, licenseImage := "", cnicFront := "", cnicBack := "",
    selfieImage := "", sponsorId := sid, sponsorBy := sby,
    sponsorTree := tree, level := lvl }

/-- A root-sponsored sponsor with two direct rank-0 children, tree
cache consistent with the `sponsorBy` edges. -/
def exTwoChildren : DB :=
  [mkNode 0 "S" "root" [1, 2] 0, mkNode 1 "A" "S" [] 0, mkNode 2 "B" "S" [] 0]

/-- The same sponsor after the admission of a third rank-0 child. -/
def exThreeChildren : DB :=
  [mkNode 0 "S" "root" [1, 2, 3] 0, mkNode 1 "A" "S" [] 0,
   mkNode 2 "B" "S" [] 0, mkNode 3 "C" "S" [] 0]

/-- The same sponsor after the admission of a fourth rank-0 child. -/
def exFourChildren : DB :=
  [mkNode 0 "S" "root" [1, 2, 3, 4] 0, mkNode 1 "A" "S" [] 0,
   mkNode 2 "B" "S" [] 0, mkNode 3 "C" "S" [] 0, mkNode 4 "D" "S" [] 0]

/-- A two-generation network: node 0 has three direct children, each
of which has three children of its own; everyone starts at rank 0. -/
def exDeepTree : DB :=
  [mkNode 0 "S" "root" [1, 2, 3] 0,
   mkNode 1 "C1" "S" [4, 5, 6] 0, mkNode 2 "C2" "S" [7, 8, 9] 0,
   mkNode 3 "C3" "S" [10, 11, 12] 0,
   mkNode 4 "G4" "C1" [] 0, mkNode 5 "G5" "C1" [] 0, mkNode 6 "G6" "C1" [] 0,
   mkNode 7 "G7" "C2" [] 0, mkNode 8 "G8" "C2" [] 0, mkNode 9 "G9" "C2" [] 0,
   mkNode 10 "G10" "C3" [] 0, mkNode 11 "G11" "C3" [] 0, mkNode 12 "G12" "C3" [] 0]

/-- C1 — counterexample.  In `exThreeChildren` the sponsor (node 0)
has three direct children, none of which has rank ≥ 1, yet the engine
promotes it from rank 0 to rank 1: the promotion is driven by
`sponsorTree.length` (children of any rank), not by the count of
children at rank ≥ 1 reaching 3 as the claim states. -/
theorem claim1_counterexample :
    (findById (updateSponsorLevels 5 exThreeChildren 0) 0).map RUser.level = some 1 ∧
    (childrenOf exThreeChildren "S").countP (fun c => decide (1 ≤ c.level)) = 0 := by
  decide

/-- C1 — amended: the engine promotes a sponsor from rank 0 to rank 1
exactly when its stored `sponsorTree` holds at least 3 direct children
of any rank: with two children the sponsor stays at rank 0, the third
child's admission promotes it to rank 1, and a fourth child causes no
further promotion. -/
theorem claim1_promotion_threshold :
    (findById (updateSponsorLevels 5 exTwoChildren 0) 0).map RUser.level = some 0 ∧
    (findById (updateSponsorLevels 5 exThreeChildren 0) 0).map RUser.level = some 1 ∧
    (findById (updateSponsorLevels 5 exFourChildren 0) 0).map RUser.level = some 1 := by
  decide

/-- C2 — counterexample.  In `exDeepTree` node 0 starts the invocation
at rank 0 and ends it at rank 2 (rank 1 via its three direct children,
then rank 2 via the three children newly promoted to rank 2 in the same
frame), so a visited node's rank can grow by more than one in a single
invocation of the engine. -/
theorem claim2_counterexample :
    (findById exDeepTree 0).map RUser.level = some 0 ∧
    (findById (updateSponsorLevels 5 exDeepTree 0) 0).map RUser.level = some 2 := by
  decide

/-- A state with one root-sponsored sponsor (referral code `"S"`, empty
`sponsorTree`) and one live verification session for a new email. -/
def exAdmission : AppState :=
  { users := [mkNode 0 "S" "root" [] 0],
    temps := [{ id := 0, email := "b@x", phoneNumber := "2", tempId := "T",
                otp := "111111", createdAt := 0 }] }

/-- C3 — the consume path loses the sponsor-tree edge.  Verifying the
session in `exAdmission` succeeds and creates user 7 with
`sponsorBy = "S"`, but the sponsor's persisted `sponsorTree` is still
empty afterwards: the source pushes onto an in-memory sponsor document
and never saves it, while `updateSponsorLevels` refetches the sponsor
by id and saves the stale copy. -/
theorem claim3_sponsorTree_push_lost :
    (verifyOTPUser 1000 5 7 "N" exAdmission "T" "111111" "Jo" "Do" "pw" "S" "m").2 =
      VerifyResult.success 7 ∧
    (findById (verifyOTPUser 1000 5 7 "N" exAdmission "T" "111111" "Jo" "Do" "pw" "S" "m").1.users 7).map
      RUser.sponsorBy = some "S" ∧
    (findById (verifyOTPUser 1000 5 7 "N" exAdmission "T" "111111" "Jo" "Do" "pw" "S" "m").1.users 0).map
      RUser.sponsorTree = some [] := by
  decide

/-- A state with a single live verification session for `"a@x"`,
created at time 5. -/
def exLiveSession : AppState :=
  { users := [],
    temps := [{ id := 0, email := "a@x", phoneNumber := "1", tempId := "T1",
                otp := "111111", createdAt := 5 }] }

/-- C7 — counterexample.  Signing up again at time 999999 for the email
of the live session in `exLiveSession` overwrites `tempId` and `otp`
in place but leaves `createdAt` at its original value 5: the session
does not get a new `createdAt` as the claim states. -/
theorem claim7_counterexample :
    (findTempByEmail
        (signupUser 999999 1 "T2" "222222" exLiveSession "f" "l" "a@x" "1" "p" "S" "m").1
        "a@x").map TempUser.createdAt = some 5 ∧
    (findTempByEmail
        (signupUser 999999 1 "T2" "222222" exLiveSession "f" "l" "a@x" "1" "p" "S" "m").1
        "a@x").map TempUser.tempId = some "T2" := by
  decide

/-- C8 — `resendOtp` persists the regenerated OTP in place (same
session record, `createdAt` untouched) but then throws: the email body
interpolates `firstName`/`lastName`, which are unbound in the module,
so the handler reports an error instead of dispatching the new OTP.
With an unknown `tempId` it fails with NotFound and changes nothing. -/
theorem claim8_resend_reference_error :
    (resendOtp exLiveSession "T1" "654321").2 = ResendResult.referenceError ∧
    ((resendOtp exLiveSession "T1" "654321").1.temps.map TempUser.tempId) = ["T1"] ∧
    ((resendOtp exLiveSession "T1" "654321").1.temps.map TempUser.otp) = ["654321"] ∧
    ((resendOtp exLiveSession "T1" "654321").1.temps.map TempUser.createdAt) = [5] ∧
    resendOtp exLiveSession "missing" "654321" = (exLiveSession, ResendResult.notFound) := by
  decide

/-- A user collection with one user still at KYC level 0 and one user
at KYC level 1. -/
def exKycUsers : DB :=
  [{ mkNode 10 "K0" "root" [] 0 with kycLevel := 0 },
   { mkNode 11 "K1" "root" [] 0 with kycLevel := 1 }]

/-- C9 — the KYC gate holds but the success path errors out.  For the
`kycLevel = 0` user, `uploadLicense` is refused and the state is
unchanged; for the `kycLevel = 1` user with a license artifact the
document is saved with `kycLevel = 2`, but the call then throws
(`jwt` is never imported in the drivers controller), so it reports a
server error rather than succeeding. -/
theorem claim9_uploadLicense_gate :
    uploadLicense exKycUsers 10 (some "url") = (exKycUsers, LicenseResult.permissionDenied) ∧
    (findById (uploadLicense exKycUsers 11 (some "url")).1 11).map RUser.kycLevel = some 2 ∧
    (uploadLicense exKycUsers 11 (some "url")).2 = LicenseResult.jwtReferenceError := by
  decide

theorem findById_eq_id {db : DB} {i : Nat} {u : RUser}
    (h : findById db i = some u) : u.id = i := by
  have := List.find?_some h
  simpa using this

theorem findById_mem {db : DB} {i : Nat} {u : RUser}
    (h : findById db i = some u) : u ∈ db :=
  List.mem_of_find?_eq_some h

theorem findById_cons (a : RUser) (l : DB) (i : Nat) :
    findById (a :: l) i = if a.id == i then some a else findById l i := by
  simp only [findById, List.find?_cons]
  by_cases h : (a.id == i) = true <;> simp [h]

theorem save_cons (a : RUser) (l : DB) (w : RUser) :
    save (a :: l) w = (if a.id == w.id then w else a) :: save l w := rfl

theorem findById_save_found {db : DB} {i : Nat} {u : RUser} (w : RUser)
    (h : findById db i = some u) (hw : w.id = i) :
    findById (save db w) i = some w := by
  induction db with
  | nil => simp [findById] at h
  | cons a rest ih =>
    rw [save_cons]
    by_cases ha : a.id = i
    · have : (a.id == w.id) = true := by simp [ha, hw]
      rw [this, if_pos rfl, findById_cons]
      simp [hw]
    · have h1 : (a.id == w.id) = false := by simp [ha, hw]
      have h2 : (a.id == i) = false := by simp [ha]
      have h3 : findById rest i = some u := by
        rw [findById_cons, h2] at h
        simpa using h
      rw [h1, if_neg (by simp), findById_cons, h2]
      simpa using ih h3

/-- C10 — `submitKYC` keeps only the first two name tokens.  When the
submitted full name splits (on spaces, dropping empty tokens) into a
first token, a second token and any remaining tokens, the call for an
existing user succeeds and persists the first token as `firstName` and
the second as `lastName`, discarding the rest; when it yields exactly
one token the call fails with the name-validation error and changes
nothing. -/
theorem claim10_submitKYC_name_split
    (db : DB) (userId : Nat) (fullName country gender f b s fn ln : String)
    (rest : List String) (hfull : fullName ≠ "") (hcountry : country ≠ "") :
    (splitFullName fullName = fn :: ln :: rest → rest ≠ [] →
      ∀ user, findById db userId = some user →
        (submitKYC db userId fullName country gender (some f) (some b) (some s)).2 =
          KycResult.ok ∧
        (findById (submitKYC db userId fullName country gender
            (some f) (some b) (some s)).1 userId).map RUser.firstName = some fn ∧
        (findById (submitKYC db userId fullName country gender
            (some f) (some b) (some s)).1 userId).map RUser.lastName = some ln) ∧
    (splitFullName fullName = [fn] →
      submitKYC db userId fullName country gender (some f) (some b) (some s) =
        (db, KycResult.nameInvalid)) := by
  constructor
  · intro htok _ user huser
    have hid : user.id = userId := findById_eq_id huser
    have hfound := findById_save_found
      { user with
        firstName := fn, lastName := ln, country := country,
        gender := gender, cnicFront := f, cnicBack := b,
        selfieImage := s, kycLevel := 1 } huser hid
    simp only [submitKYC, hfull, hcountry, htok, huser]
    simp [hfound]
  · intro htok
    simp [submitKYC, hfull, hcountry, htok]

/-- Witness for `claim10_submitKYC_name_split` at a concrete call. -/
theorem claim10_submitKYC_name_split_witness :
    (submitKYC [mkNode 3 "S" "root" [] 0] 3 "a b c" "PK" "m"
        (some "f") (some "b") (some "s")).2 = KycResult.ok ∧
    (findById (submitKYC [mkNode 3 "S" "root" [] 0] 3 "a b c" "PK" "m"
        (some "f") (some "b") (some "s")).1 3).map RUser.firstName = some "a" ∧
    (findById (submitKYC [mkNode 3 "S" "root" [] 0] 3 "a b c" "PK" "m"
        (some "f") (some "b") (some "s")).1 3).map RUser.lastName = some "b" ∧
    submitKYC [mkNode 3 "S" "root" [] 0] 3 "solo" "PK" "m"
        (some "f") (some "b") (some "s") =
      ([mkNode 3 "S" "root" [] 0], KycResult.nameInvalid) := by
  refine ⟨?_, ?_, ?_, ?_⟩
  · exact ((claim10_submitKYC_name_split [mkNode 3 "S" "root" [] 0] 3 "a b c" "PK" "m"
      "f" "b" "s" "a" "b" ["c"] (by decide) (by decide)).1 (by decide) (by decide)
      (mkNode 3 "S" "root" [] 0) (by decide)).1
  · exact ((claim10_submitKYC_name_split [mkNode 3 "S" "root" [] 0] 3 "a b c" "PK" "m"
      "f" "b" "s" "a" "b" ["c"] (by decide) (by decide)).1 (by decide) (by decide)
      (mkNode 3 "S" "root" [] 0) (by decide)).2.1
  · exact ((claim10_submitKYC_name_split [mkNode 3 "S" "root" [] 0] 3 "a b c" "PK" "m"
      "f" "b" "s" "a" "b" ["c"] (by decide) (by decide)).1 (by decide) (by decide)
      (mkNode 3 "S" "root" [] 0) (by decide)).2.2
  · exact (claim10_submitKYC_name_split [mkNode 3 "S" "root" [] 0] 3 "solo" "PK" "m"
      "f" "b" "s" "solo" "x" [] (by decide) (by decide)).2 (by decide)

theorem find?_cons_true {α : Type} {p : α → Bool} {a : α} {l : List α}
    (h : p a = true) : List.find? p (a :: l) = some a := by
  simp [List.find?_cons, h]

theorem find?_cons_false {α : Type} {p : α → Bool} {a : α} {l : List α}
    (h : p a = false) : List.find? p (a :: l) = List.find? p l := by
  simp [List.find?_cons, h]

theorem overwrite_filter (temps : List TempUser) (e : String) (tmp upd : TempUser)
    (hids : (temps.map TempUser.id).Nodup)
    (hemails : (temps.map TempUser.email).Nodup)
    (hfind : temps.find? (fun s => s.email == e) = some tmp)
    (hupd_email : upd.email = e) :
    (temps.map (fun s => if s.id == tmp.id then upd else s)).filter
      (fun s => s.email == e) = [upd] := by
  induction temps with
  | nil => simp at hfind
  | cons a rest ih =>
    simp only [List.map_cons, List.nodup_cons] at hids hemails
    by_cases hae : a.email = e
    · have htmp : tmp = a := by
        rw [find?_cons_true (by simp [hae])] at hfind
        exact (Option.some_inj.mp hfind).symm
      have hrest : (rest.map (fun s => if s.id == tmp.id then upd else s)).filter
          (fun s => s.email == e) = [] := by
        rw [List.filter_eq_nil_iff]
        intro x hx
        rcases List.mem_map.mp hx with ⟨s, hs, hxs⟩
        have hsid : (s.id == tmp.id) = false := by
          simp only [beq_eq_false_iff_ne, ne_eq, htmp]
          intro hcontra
          exact hids.1 (List.mem_map.mpr ⟨s, hs, hcontra⟩)
        have hxe : x = s := by rw [← hxs, hsid]; simp
        have hse : s.email ≠ e := by
          intro hcontra
          refine hemails.1 (List.mem_map.mpr ⟨s, hs, ?_⟩)
          rw [hcontra, hae]
        simp [hxe, hse]
      have hhead : (a.id == tmp.id) = true := by simp [htmp]
      simp only [List.map_cons, hhead, if_true]
      rw [List.filter_cons_of_pos (by simp [hupd_email]), hrest]
    · rw [find?_cons_false (by simp [hae])] at hfind
      have htmpmem : tmp ∈ rest := List.mem_of_find?_eq_some hfind
      have haid : (a.id == tmp.id) = false := by
        simp only [beq_eq_false_iff_ne, ne_eq]
        intro hcontra
        exact hids.1 (List.mem_map.mpr ⟨tmp, htmpmem, hcontra.symm⟩)
      simp only [List.map_cons, haid, if_false]
      rw [List.filter_cons_of_neg (by simp [hae])]
      exact ih hids.2 hemails.2 hfind

/-- C7 — amended overwrite behavior of `signupUser`.  With unique
session ids and emails (the schema's unique indexes), a second signup
for an email with a live session overwrites that session in place —
same record identity, new `tempId` and new `otp`, but the original
`createdAt` (the source never refreshes it) — leaving exactly one live
session for the email, whose stored OTP is the newly generated one;
with no live session it inserts a new record. -/
theorem claim7_session_overwrite
    (now newRecId : Nat) (newTempId newOtp : String) (st : AppState)
    (firstName lastName email phoneNumber password sponsorBy gender : String)
    (h1 : firstName ≠ "") (h2 : lastName ≠ "") (h3 : email ≠ "")
    (h4 : phoneNumber ≠ "") (h5 : password ≠ "") (h6 : sponsorBy ≠ "")
    (h7 : gender ≠ "")
    (hids : (st.temps.map TempUser.id).Nodup)
    (hemails : (st.temps.map TempUser.email).Nodup) :
    (∀ tmp, findTempByEmail st email = some tmp →
      (signupUser now newRecId newTempId newOtp st firstName lastName email
          phoneNumber password sponsorBy gender).2 = SignupResult.otpSent newTempId ∧
      ((signupUser now newRecId newTempId newOtp st firstName lastName email
          phoneNumber password sponsorBy gender).1.temps.filter
        (fun s => s.email == email)) =
        [{ tmp with tempId := newTempId, otp := newOtp }]) ∧
    (findTempByEmail st email = none →
      signupUser now newRecId newTempId newOtp st firstName lastName email
          phoneNumber password sponsorBy gender =
        ({ st with temps := st.temps ++
            [{ id := newRecId, email := email, phoneNumber := phoneNumber,
               tempId := newTempId, otp := newOtp, createdAt := now }] },
         SignupResult.otpSent newTempId)) := by
  constructor
  · intro tmp hfind
    have hfind' : st.temps.find? (fun s => s.email == email) = some tmp := hfind
    have hTe : tmp.email = email := by
      have := List.find?_some hfind'
      simpa using this
    constructor
    · simp [signupUser, h1, h2, h3, h4, h5, h6, h7, hfind]
    · simp only [signupUser, h1, h2, h3, h4, h5, h6, h7, hfind]
      simp only [or_self, if_false]
      exact overwrite_filter st.temps email tmp _ hids hemails hfind' hTe
  · intro hfind
    simp [signupUser, h1, h2, h3, h4, h5, h6, h7, hfind]

/-- Witness for `claim7_session_overwrite` at a concrete state. -/
theorem claim7_session_overwrite_witness :
    ((signupUser 999999 1 "T2" "222222" exLiveSession "f" "l" "a@x" "1" "p" "S"
        "m").1.temps.filter (fun s => s.email == "a@x")) =
      [{ id := 0, email := "a@x", phoneNumber := "1", tempId := "T2",
         otp := "222222", createdAt := 5 }] ∧
    signupUser 999999 1 "T2" "222222" exLiveSession "f" "l" "b@x" "1" "p" "S" "m" =
      ({ exLiveSession with temps := exLiveSession.temps ++
          [{ id := 1, email := "b@x", phoneNumber := "1", tempId := "T2",
             otp := "222222", createdAt := 999999 }] },
       SignupResult.otpSent "T2") := by
  constructor
  · exact ((claim7_session_overwrite 999999 1 "T2" "222222" exLiveSession
      "f" "l" "a@x" "1" "p" "S" "m" (by decide) (by decide) (by decide) (by decide)
      (by decide) (by decide) (by decide) (by decide) (by decide)).1
      { id := 0, email := "a@x", phoneNumber := "1", tempId := "T1",
        otp := "111111", createdAt := 5 } (by decide)).2
  · exact (claim7_session_overwrite 999999 1 "T2" "222222" exLiveSession
      "f" "l" "b@x" "1" "p" "S" "m" (by decide) (by decide) (by decide) (by decide)
      (by decide) (by decide) (by decide) (by decide) (by decide)).2 (by decide)

/-- C6 — the `verifyOTPUser` (consume) contract.  With all request
fields present: an unknown session id fails with NotFound; a session
past `createdAt + 10min` fails with Expired and is deleted; a wrong
OTP fails with InvalidOtp; an existing verified user with the
session's email or phone fails with Conflict; otherwise the verified
user is created, the leveling engine is triggered synchronously on the
new collection, and the session is deleted, all before returning. -/
theorem claim6_verifyOTP_contract
    (now fuel newUserId : Nat) (newSponsorId : String) (st : AppState)
    (tempId otp firstName lastName password sponsorBy gender : String)
    (h1 : tempId ≠ "") (h2 : otp ≠ "") (h3 : firstName ≠ "") (h4 : lastName ≠ "")
    (h5 : password ≠ "") (h6 : sponsorBy ≠ "") (h7 : gender ≠ "") :
    (findTempByTempId st tempId = none →
      verifyOTPUser now fuel newUserId newSponsorId st tempId otp firstName
          lastName password sponsorBy gender = (st, VerifyResult.notFound)) ∧
    (∀ tmp, findTempByTempId st tempId = some tmp →
      (tmp.createdAt + 10 * 60 * 1000 < now →
        verifyOTPUser now fuel newUserId newSponsorId st tempId otp firstName
            lastName password sponsorBy gender =
          (deleteTemp st tmp.id, VerifyResult.expired) ∧
        tmp ∉ (deleteTemp st tmp.id).temps) ∧
      (¬ tmp.createdAt + 10 * 60 * 1000 < now → tmp.otp ≠ otp →
        verifyOTPUser now fuel newUserId newSponsorId st tempId otp firstName
            lastName password sponsorBy gender = (st, VerifyResult.invalidOtp)) ∧
      (¬ tmp.createdAt + 10 * 60 * 1000 < now → tmp.otp = otp →
        (∃ u ∈ st.users, u.isVerified = true ∧
          (u.email = tmp.email ∨ u.phoneNumber = tmp.phoneNumber)) →
        verifyOTPUser now fuel newUserId newSponsorId st tempId otp firstName
            lastName password sponsorBy gender = (st, VerifyResult.conflict)) ∧
      (¬ tmp.createdAt + 10 * 60 * 1000 < now → tmp.otp = otp →
        (∀ u ∈ st.users, u.email ≠ tmp.email ∧ u.phoneNumber ≠ tmp.phoneNumber) →
        verifyOTPUser now fuel newUserId newSponsorId st tempId otp firstName
            lastName password sponsorBy gender =
          ({ users := triggerLeveling fuel (st.users ++
                [mkVerifiedUser newUserId newSponsorId firstName lastName
                  password gender sponsorBy tmp]) sponsorBy,
             temps := (deleteTemp st tmp.id).temps }, VerifyResult.success newUserId) ∧
        (mkVerifiedUser newUserId newSponsorId firstName lastName password gender
          sponsorBy tmp).isVerified = true ∧
        tmp ∉ (deleteTemp st tmp.id).temps)) := by
  constructor
  · intro hfind
    simp [verifyOTPUser, h1, h2, h3, h4, h5, h6, h7, hfind]
  · intro tmp hfind
    refine ⟨?_, ?_, ?_, ?_⟩
    · intro hexp
      refine ⟨?_, ?_⟩
      · simp [verifyOTPUser, h1, h2, h3, h4, h5, h6, h7, hfind, hexp]
      · simp [deleteTemp]
    · intro hexp hotp
      simp [verifyOTPUser, h1, h2, h3, h4, h5, h6, h7, hfind, hexp, hotp]
    · intro hexp hotp hconf
      have hany : st.users.any (fun u => u.email == tmp.email ||
          u.phoneNumber == tmp.phoneNumber) = true := by
        rcases hconf with ⟨u, hu, _, hmatch⟩
        refine List.any_eq_true.mpr ⟨u, hu, ?_⟩
        rcases hmatch with h | h <;> simp [h]
      simp [verifyOTPUser, h1, h2, h3, h4, h5, h6, h7, hfind, hexp, hotp, hany]
    · intro hexp hotp hnoconf
      have hany : st.users.any (fun u => u.email == tmp.email ||
          u.phoneNumber == tmp.phoneNumber) = false := by
        rw [List.any_eq_false]
        intro u hu
        rcases hnoconf u hu with ⟨he, hp⟩
        simp [he, hp]
      refine ⟨?_, rfl, by simp [deleteTemp]⟩
      simp [verifyOTPUser, h1, h2, h3, h4, h5, h6, h7, hfind, hexp, hotp, hany,
        deleteTemp]

/-- Witness for `claim6_verifyOTP_contract` at concrete calls. -/
theorem claim6_verifyOTP_contract_witness :
    verifyOTPUser 1000 5 7 "N" exAdmission "missing" "111111" "Jo" "Do" "pw" "S" "m" =
      (exAdmission, VerifyResult.notFound) ∧
    (verifyOTPUser 1000 5 7 "N" exAdmission "T" "111111" "Jo" "Do" "pw" "S" "m").2 =
      VerifyResult.success 7 := by
  constructor
  · exact (claim6_verifyOTP_contract 1000 5 7 "N" exAdmission "missing" "111111"
      "Jo" "Do" "pw" "S" "m" (by decide) (by decide) (by decide) (by decide)
      (by decide) (by decide) (by decide)).1 (by decide)
  · have h := ((claim6_verifyOTP_contract 1000 5 7 "N" exAdmission "T" "111111"
      "Jo" "Do" "pw" "S" "m" (by decide) (by decide) (by decide) (by decide)
      (by decide) (by decide) (by decide)).2
      { id := 0, email := "b@x", phoneNumber := "2", tempId := "T",
        otp := "111111", createdAt := 0 } (by decide)).2.2.2
      (by decide) (by decide) (by decide)
    exact congrArg Prod.snd h.1

theorem setLevel_id (u : RUser) (l : Nat) : (setLevel u l).id = u.id := rfl

theorem setLevel_sponsorId (u : RUser) (l : Nat) :
    (setLevel u l).sponsorId = u.sponsorId := rfl

theorem setLevel_sponsorBy (u : RUser) (l : Nat) :
    (setLevel u l).sponsorBy = u.sponsorBy := rfl

theorem setLevel_level (u : RUser) (l : Nat) : (setLevel u l).level = l := rfl

theorem setLevel_self (u : RUser) : setLevel u u.level = u := rfl

theorem setLevel_setLevel (u : RUser) (l m : Nat) :
    setLevel (setLevel u l) m = setLevel u m := rfl

theorem mem_save {st : DB} {u x : RUser} (hx : x ∈ save st u) :
    x = u ∨ x ∈ st := by
  rcases List.mem_map.mp hx with ⟨v, hv, hvx⟩
  by_cases h : (v.id == u.id) = true
  · left; rw [← hvx]; simp [h]
  · right
    have : x = v := by rw [← hvx]; simp [h]
    rw [this]; exact hv

theorem refLoop_level_le (cond : DB → RUser → Bool) (upd : RUser → RUser)
    (bound : Nat) (hupd : ∀ r, (upd r).level ≤ bound) :
    ∀ (snap : List RUser) (st : DB) (t : Nat),
      (∀ u ∈ st, u.level ≤ bound) →
      ∀ u ∈ (refLoop cond upd snap st t).1, u.level ≤ bound := by
  intro snap
  induction snap with
  | nil => intro st t hst u hu; exact hst u hu
  | cons r rest ih =>
    intro st t hst u hu
    rw [refLoop] at hu
    by_cases hc : cond st r = true
    · rw [if_pos hc] at hu
      refine ih _ _ ?_ u hu
      intro v hv
      rcases mem_save hv with h | h
      · rw [h]; exact hupd r
      · exact hst v h
    · rw [if_neg (by simp [hc])] at hu
      exact ih _ _ hst u hu


/-- The saved `user` document always leaves a frame with level at most
4: the explicit cap guarantees it regardless of the input level. -/
theorem capLevel_level_le (u : RUser) : (capLevel u).level ≤ 4 := by
  rw [capLevel]
  by_cases h : 4 < u.level
  · simp [h, setLevel_level]
  · simp only [h, if_false]
    omega

theorem frameUser_level_le (u0 : RUser) (t2 t3 t4 : Nat) :
    (frameUser u0 t2 t3 t4).level ≤ 4 := by
  rw [frameUser]
  exact capLevel_level_le _

theorem frame_level_le (st : DB) (userId : Nat)
    (hst : ∀ u ∈ st, u.level ≤ 4) :
    ∀ u ∈ (frame st userId).1, u.level ≤ 4 := by
  rw [frame]
  cases hfind : findById st userId with
  | none => simpa using hst
  | some user0 =>
    intro u hu
    simp only at hu
    have h2 : ∀ u ∈ (loop2St st user0.sponsorId).1, u.level ≤ 4 := by
      rw [loop2St]
      exact refLoop_level_le _ _ 4 (fun r => by simp [setLevel_level]) _ _ _ hst
    have h3 : ∀ u ∈ (loop3St (loop2St st user0.sponsorId).1 user0.sponsorId).1,
        u.level ≤ 4 := by
      rw [loop3St]
      exact refLoop_level_le _ _ 4 (fun r => by simp [setLevel_level]) _ _ _ h2
    have h4 : ∀ u ∈ (loop4St (loop3St (loop2St st user0.sponsorId).1
        user0.sponsorId).1 user0.sponsorId).1, u.level ≤ 4 := by
      rw [loop4St]
      exact refLoop_level_le _ _ 4 (fun r => by simp [setLevel_level]) _ _ _ h3
    rcases mem_save hu with h | h
    · rw [h]; exact frameUser_level_le _ _ _ _
    · exact h4 u h

theorem updateSponsorLevels_level_le (fuel : Nat) :
    ∀ (st : DB) (start : Nat), (∀ u ∈ st, u.level ≤ 4) →
      ∀ u ∈ updateSponsorLevels fuel st start, u.level ≤ 4 := by
  induction fuel with
  | zero => intro st start hst; simpa [updateSponsorLevels] using hst
  | succ fuel ih =>
    intro st start hst
    rw [updateSponsorLevels]
    have hmem := frame_level_le st start hst
    cases hf : frame st start with
    | mk st1 uo =>
      rw [hf] at hmem
      cases uo with
      | none => exact hmem
      | some user =>
        simp only []
        split
        · cases hpar : findOneBySponsorId st1 user.sponsorBy with
          | some parentSponsor => exact ih st1 parentSponsor.id hmem
          | none => exact hmem
        · exact hmem

theorem triggerLeveling_level_le (fuel : Nat) (db : DB) (sponsorBy : String)
    (hdb : ∀ u ∈ db, u.level ≤ 4) :
    ∀ u ∈ triggerLeveling fuel db sponsorBy, u.level ≤ 4 := by
  rw [triggerLeveling]
  cases findOneBySponsorId db sponsorBy with
  | some sponsor => exact updateSponsorLevels_level_le fuel db sponsor.id hdb
  | none => exact hdb

theorem verifyOTP_level_le (now fuel newUserId : Nat) (newSponsorId : String)
    (st : AppState) (tempId otp firstName lastName password sponsorBy gender : String)
    (hst : ∀ u ∈ st.users, u.level ≤ 4) :
    ∀ u ∈ (verifyOTPUser now fuel newUserId newSponsorId st tempId otp firstName
        lastName password sponsorBy gender).1.users, u.level ≤ 4 := by
  rw [verifyOTPUser]
  split
  · exact hst
  · cases findTempByTempId st tempId with
    | none => exact hst
    | some tempUser =>
      simp only []
      split
      · simpa [deleteTemp] using hst
      · split
        · exact hst
        · split
          · exact hst
          · simp only [deleteTemp]
            refine triggerLeveling_level_le fuel _ sponsorBy ?_
            intro u hu
            rcases List.mem_append.mp hu with h | h
            · exact hst u h
            · rcases List.mem_singleton.mp h with rfl
              simp [mkVerifiedUser]

/-- A network operation of the claim: an admission through the OTP
consume path, or a standalone run of the leveling engine. -/
inductive NetOp where
  | admitUser (now fuel newUserId : Nat)
      (newSponsorId tempId otp firstName lastName password sponsorBy gender : String)
  | runEngine (fuel start : Nat)

/-- Apply one network operation to the application state. -/
def applyNetOp (st : AppState) : NetOp → AppState
  | .admitUser now fuel newUserId newSponsorId tempId otp firstName lastName
      password sponsorBy gender =>
    (verifyOTPUser now fuel newUserId newSponsorId st tempId otp firstName
      lastName password sponsorBy gender).1
  | .runEngine fuel start =>
    { st with users := updateSponsorLevels fuel st.users start }

/-- C5 — the level cap.  Starting from any state whose users all have
level at most 4, any sequence of admissions and leveling-engine runs
(over any subtree shape) leaves every user's level at most 4. -/
theorem claim5_level_cap (init : AppState) (ops : List NetOp)
    (hinit : ∀ u ∈ init.users, u.level ≤ 4) :
    ∀ u ∈ (ops.foldl applyNetOp init).users, u.level ≤ 4 := by
  induction ops generalizing init with
  | nil => simpa using hinit
  | cons op rest ih =>
    rw [List.foldl_cons]
    refine ih (applyNetOp init op) ?_
    cases op with
    | admitUser now fuel newUserId newSponsorId tempId otp firstName lastName
        password sponsorBy gender =>
      exact verifyOTP_level_le now fuel newUserId newSponsorId init tempId otp
        firstName lastName password sponsorBy gender hinit
    | runEngine fuel start =>
      exact updateSponsorLevels_level_le fuel init.users start hinit

/-- Witness for `claim5_level_cap` on a concrete state and operation
sequence (an admission followed by an engine run). -/
theorem claim5_level_cap_witness :
    (([NetOp.admitUser 1000 5 7 "N" "T" "111111" "Jo" "Do" "pw" "S" "m",
       NetOp.runEngine 5 0].foldl applyNetOp exAdmission).users.all
      (fun u => decide (u.level ≤ 4))) = true := by
  rw [List.all_eq_true]
  intro u hu
  simpa using claim5_level_cap exAdmission
    [NetOp.admitUser 1000 5 7 "N" "T" "111111" "Jo" "Do" "pw" "S" "m",
     NetOp.runEngine 5 0] (by decide) u hu

/-- The state transformer equivalent to a partially executed promotion
loop: the elements of `ss` (the processed prefix of the snapshot) that
satisfied the loop condition have been promoted, everything else is
untouched. -/
def pmap (cond0 : RUser → Bool) (upd : RUser → RUser) (ss : List RUser)
    (v : RUser) : RUser :=
  if v ∈ ss ∧ cond0 v = true then upd v else v

theorem pmap_id (cond0 : RUser → Bool) (upd : RUser → RUser)
    (hupd : ∀ r, (upd r).id = r.id) (ss : List RUser) (v : RUser) :
    (pmap cond0 upd ss v).id = v.id := by
  rw [pmap]; split
  · exact hupd v
  · rfl

theorem pmap_sponsorBy (cond0 : RUser → Bool) (upd : RUser → RUser)
    (hupd : ∀ r, (upd r).sponsorBy = r.sponsorBy) (ss : List RUser) (v : RUser) :
    (pmap cond0 upd ss v).sponsorBy = v.sponsorBy := by
  rw [pmap]; split
  · exact hupd v
  · rfl

theorem map_pmap_nil (cond0 : RUser → Bool) (upd : RUser → RUser) (base : DB) :
    base.map (pmap cond0 upd []) = base := by
  have : ∀ v ∈ base, pmap cond0 upd [] v = v := by
    intro v _
    rw [pmap]
    simp
  rw [List.map_eq_map_iff.mpr this]
  simp

/-- Exact characterization of a promotion loop, given that its
condition is insensitive to the promotions the loop itself performs:
the final state applies `pmap` over the full snapshot and the counter
counts the snapshot elements satisfying the static condition. -/
theorem refLoop_char (cond : DB → RUser → Bool) (cond0 : RUser → Bool)
    (upd : RUser → RUser) (base : DB) (snapAll : List RUser)
    (hids : (base.map RUser.id).Nodup)
    (hupd : ∀ r, (upd r).id = r.id)
    (hmemAll : ∀ r ∈ snapAll, r ∈ base)
    (hstable : ∀ ss : List RUser, (∀ x ∈ ss, x ∈ snapAll) →
      ∀ r ∈ snapAll, cond (base.map (pmap cond0 upd ss)) r = cond0 r) :
    ∀ (snap pre : List RUser), pre ++ snap = snapAll → ∀ t : Nat,
      refLoop cond upd snap (base.map (pmap cond0 upd pre)) t =
        (base.map (pmap cond0 upd snapAll), t + snap.countP cond0) := by
  intro snap
  induction snap with
  | nil =>
    intro pre hsplit t
    rw [List.append_nil] at hsplit
    rw [refLoop, hsplit]
    simp
  | cons r rest ih =>
    intro pre hsplit t
    have hr : r ∈ snapAll := by
      rw [← hsplit]; simp
    have hpre : ∀ x ∈ pre, x ∈ snapAll := by
      intro x hx; rw [← hsplit]; simp [hx]
    have hcond : cond (base.map (pmap cond0 upd pre)) r = cond0 r :=
      hstable pre hpre r hr
    have hsplit2 : (pre ++ [r]) ++ rest = snapAll := by
      rw [← hsplit]; simp
    rw [refLoop, hcond]
    by_cases hc0 : cond0 r = true
    · rw [if_pos hc0]
      have hsave : save (base.map (pmap cond0 upd pre)) (upd r) =
          base.map (pmap cond0 upd (pre ++ [r])) := by
        rw [save, List.map_map]
        refine List.map_eq_map_iff.mpr ?_
        intro v hv
        simp only [Function.comp]
        by_cases hvid : v.id = r.id
        · have hvr : v = r :=
            List.inj_on_of_nodup_map hids hv (hmemAll r hr) hvid
          have : ((pmap cond0 upd pre v).id == (upd r).id) = true := by
            rw [pmap_id cond0 upd hupd, hupd, hvid]
            simp
          rw [if_pos this, pmap, if_pos ⟨by simp [hvr], by rw [hvr]; exact hc0⟩, hvr]
        · have : ((pmap cond0 upd pre v).id == (upd r).id) = false := by
            rw [pmap_id cond0 upd hupd, hupd]
            simp [hvid]
          rw [if_neg (by simp [this])]
          have hmemiff : (v ∈ pre ++ [r]) ↔ (v ∈ pre) := by
            simp only [List.mem_append, List.mem_singleton]
            constructor
            · rintro (h | rfl)
              · exact h
              · exact absurd rfl hvid
            · intro h; exact Or.inl h
          rw [pmap, pmap]
          by_cases hvp : v ∈ pre ∧ cond0 v = true
          · rw [if_pos hvp, if_pos ⟨hmemiff.mpr hvp.1, hvp.2⟩]
          · rw [if_neg hvp, if_neg (by rw [hmemiff]; exact hvp)]
      rw [hsave, ih (pre ++ [r]) hsplit2 (t + 1)]
      rw [List.countP_cons_of_pos _ _ hc0]
      congr 1
      omega
    · rw [if_neg (by simp [hc0])]
      have hstate : base.map (pmap cond0 upd pre) =
          base.map (pmap cond0 upd (pre ++ [r])) := by
        refine List.map_eq_map_iff.mpr ?_
        intro v _
        rw [pmap, pmap]
        by_cases hvp : v ∈ pre ∧ cond0 v = true
        · rw [if_pos hvp, if_pos ⟨by simp [hvp.1], hvp.2⟩]
        · rw [if_neg hvp, if_neg ?_]
          rintro ⟨hmem, hcv⟩
          rcases List.mem_append.mp hmem with h | h
          · exact hvp ⟨h, hcv⟩
          · rcases List.mem_singleton.mp h with rfl
            exact absurd hcv hc0
      rw [hstate, ih (pre ++ [r]) hsplit2 t]
      rw [List.countP_cons_of_neg _ _ (by simp [hc0])]

theorem mem_childrenOf {st : DB} {c : String} {x : RUser} :
    x ∈ childrenOf st c ↔ x ∈ st ∧ x.sponsorBy = c := by
  simp [childrenOf, List.mem_filter]

theorem mem_childrenAtLevel {st : DB} {c : String} {l : Nat} {x : RUser} :
    x ∈ childrenAtLevel st c l ↔ x ∈ st ∧ x.level = l ∧ x.sponsorBy = c := by
  simp [childrenAtLevel, List.mem_filter]

theorem childrenOf_map_length (st : DB) (c : String) (f : RUser → RUser)
    (hf : ∀ v ∈ st, (f v).sponsorBy = v.sponsorBy) :
    (childrenOf (st.map f) c).length = (childrenOf st c).length := by
  rw [childrenOf, childrenOf, List.filter_map, List.length_map]
  congr 1
  refine List.filter_congr ?_
  intro v hv
  simp [Function.comp, hf v hv]

theorem childrenAtLevel_map_untouched (st : DB) (K key : String) (l : Nat)
    (f : RUser → RUser)
    (hsb : ∀ v ∈ st, (f v).sponsorBy = v.sponsorBy)
    (htouch : ∀ v ∈ st, f v ≠ v → v.sponsorBy = K)
    (hne : key ≠ K) :
    childrenAtLevel (st.map f) key l = childrenAtLevel st key l := by
  have hne2 : K ≠ key := fun h => hne h.symm
  rw [childrenAtLevel, childrenAtLevel, List.filter_map]
  have hpf : ∀ v ∈ st, ((fun u => u.level == l && u.sponsorBy == key) ∘ f) v =
      (fun u => u.level == l && u.sponsorBy == key) v := by
    intro v hv
    by_cases hfv : f v = v
    · simp [Function.comp, hfv]
    · have hK : v.sponsorBy = K := htouch v hv hfv
      have h1 : (f v).sponsorBy = K := by rw [hsb v hv]; exact hK
      have h2 : (K == key) = false := by simp [hne2]
      simp [Function.comp, h1, hK, h2]
  rw [List.filter_congr hpf]
  have hfix : ∀ x ∈ st.filter (fun u => u.level == l && u.sponsorBy == key),
      f x = x := by
    intro x hx
    have hp := List.of_mem_filter hx
    have hxk : x.sponsorBy = key := by
      have := (Bool.and_eq_true _ _).mp hp
      simpa using this.2
    by_contra hfx
    exact hne2 (by rw [← htouch x (List.mem_of_mem_filter hx) hfx, hxk])
  calc (st.filter (fun u => u.level == l && u.sponsorBy == key)).map f
      = (st.filter (fun u => u.level == l && u.sponsorBy == key)).map
          (fun v => v) := List.map_eq_map_iff.mpr hfix
    _ = st.filter (fun u => u.level == l && u.sponsorBy == key) := by simp

/-- The effect of the first promotion loop on a single record. -/
def phi2 (st : DB) (K : String) (v : RUser) : RUser :=
  if v.sponsorBy = K ∧ cond2 st v = true then setLevel v 2 else v

/-- The effect of the second promotion loop on a single record. -/
def phi3 (st2 : DB) (K : String) (v : RUser) : RUser :=
  if v.level = 2 ∧ v.sponsorBy = K ∧ cond3 st2 v = true then setLevel v 3 else v

/-- The effect of the third promotion loop on a single record. -/
def phi4 (st3 : DB) (K : String) (v : RUser) : RUser :=
  if v.level = 3 ∧ v.sponsorBy = K ∧ cond4 st3 v = true then setLevel v 4 else v

theorem phi2_id (st : DB) (K : String) (v : RUser) : (phi2 st K v).id = v.id := by
  rw [phi2]; split <;> rfl

theorem phi3_id (st : DB) (K : String) (v : RUser) : (phi3 st K v).id = v.id := by
  rw [phi3]; split <;> rfl

theorem phi4_id (st : DB) (K : String) (v : RUser) : (phi4 st K v).id = v.id := by
  rw [phi4]; split <;> rfl

theorem phi2_sponsorBy (st : DB) (K : String) (v : RUser) :
    (phi2 st K v).sponsorBy = v.sponsorBy := by
  rw [phi2]; split <;> rfl

theorem phi3_sponsorBy (st : DB) (K : String) (v : RUser) :
    (phi3 st K v).sponsorBy = v.sponsorBy := by
  rw [phi3]; split <;> rfl

theorem phi4_sponsorBy (st : DB) (K : String) (v : RUser) :
    (phi4 st K v).sponsorBy = v.sponsorBy := by
  rw [phi4]; split <;> rfl

theorem phi2_sponsorId (st : DB) (K : String) (v : RUser) :
    (phi2 st K v).sponsorId = v.sponsorId := by
  rw [phi2]; split <;> rfl

theorem phi3_sponsorId (st : DB) (K : String) (v : RUser) :
    (phi3 st K v).sponsorId = v.sponsorId := by
  rw [phi3]; split <;> rfl

theorem phi4_sponsorId (st : DB) (K : String) (v : RUser) :
    (phi4 st K v).sponsorId = v.sponsorId := by
  rw [phi4]; split <;> rfl

theorem pmap_mem_of_ne (cond0 : RUser → Bool) (upd : RUser → RUser)
    (ss : List RUser) (v : RUser) (h : pmap cond0 upd ss v ≠ v) : v ∈ ss := by
  by_contra hmem
  exact h (by rw [pmap, if_neg (fun hc => hmem hc.1)])

theorem loop2_char (st : DB) (K : String) (hids : (st.map RUser.id).Nodup) :
    loop2St st K = (st.map (phi2 st K), (childrenOf st K).countP (cond2 st)) := by
  rw [loop2St]
  have hstable : ∀ ss : List RUser, (∀ x ∈ ss, x ∈ childrenOf st K) →
      ∀ r ∈ childrenOf st K,
        cond2 (st.map (pmap (cond2 st) (fun r => setLevel r 2) ss)) r = cond2 st r := by
    intro ss _ r _
    rw [cond2, cond2, childrenOf_map_length st r.sponsorId _
      (fun v _ => pmap_sponsorBy (cond2 st) (fun r => setLevel r 2)
        (fun r => rfl) ss v)]
  have h := refLoop_char cond2 (cond2 st) (fun r => setLevel r 2) st
    (childrenOf st K) hids (fun r => rfl)
    (fun r hr => List.mem_of_mem_filter hr) hstable (childrenOf st K) [] rfl 0
  rw [map_pmap_nil] at h
  rw [h]
  congr 1
  · refine List.map_eq_map_iff.mpr ?_
    intro v hv
    rw [pmap, phi2]
    by_cases hvk : v.sponsorBy = K ∧ cond2 st v = true
    · rw [if_pos ⟨mem_childrenOf.mpr ⟨hv, hvk.1⟩, hvk.2⟩, if_pos hvk]
    · rw [if_neg ?_, if_neg hvk]
      rintro ⟨hmem, hc⟩
      exact hvk ⟨(mem_childrenOf.mp hmem).2, hc⟩
  · simp

theorem loop3_char (st2 : DB) (K : String)
    (hids : (st2.map RUser.id).Nodup)
    (hKne : ∀ r ∈ st2, r.sponsorBy = K → r.sponsorId ≠ K) :
    loop3St st2 K = (st2.map (phi3 st2 K),
      (childrenAtLevel st2 K 2).countP (cond3 st2)) := by
  rw [loop3St]
  have hstable : ∀ ss : List RUser, (∀ x ∈ ss, x ∈ childrenAtLevel st2 K 2) →
      ∀ r ∈ childrenAtLevel st2 K 2,
        cond3 (st2.map (pmap (cond3 st2) (fun r => setLevel r 3) ss)) r =
          cond3 st2 r := by
    intro ss hss r hr
    rcases mem_childrenAtLevel.mp hr with ⟨hrmem, _, hrK⟩
    rw [cond3, cond3, childrenAtLevel_map_untouched st2 K r.sponsorId 2 _
      (fun v _ => pmap_sponsorBy (cond3 st2) (fun r => setLevel r 3)
        (fun r => rfl) ss v) ?_
      (hKne r hrmem hrK)]
    intro v _ hv
    exact (mem_childrenAtLevel.mp (hss v (pmap_mem_of_ne _ _ _ _ hv))).2.2
  have h := refLoop_char cond3 (cond3 st2) (fun r => setLevel r 3) st2
    (childrenAtLevel st2 K 2) hids (fun r => rfl)
    (fun r hr => List.mem_of_mem_filter hr) hstable (childrenAtLevel st2 K 2) [] rfl 0
  rw [map_pmap_nil] at h
  rw [h]
  congr 1
  · refine List.map_eq_map_iff.mpr ?_
    intro v hv
    rw [pmap, phi3]
    by_cases hvk : v.level = 2 ∧ v.sponsorBy = K ∧ cond3 st2 v = true
    · rw [if_pos ⟨mem_childrenAtLevel.mpr ⟨hv, hvk.1, hvk.2.1⟩, hvk.2.2⟩, if_pos hvk]
    · rw [if_neg ?_, if_neg hvk]
      rintro ⟨hmem, hc⟩
      rcases mem_childrenAtLevel.mp hmem with ⟨_, hl, hk⟩
      exact hvk ⟨hl, hk, hc⟩
  · simp

theorem loop4_char (st3 : DB) (K : String)
    (hids : (st3.map RUser.id).Nodup)
    (hKne : ∀ r ∈ st3, r.sponsorBy = K → r.sponsorId ≠ K) :
    loop4St st3 K = (st3.map (phi4 st3 K),
      (childrenAtLevel st3 K 3).countP (cond4 st3)) := by
  rw [loop4St]
  have hstable : ∀ ss : List RUser, (∀ x ∈ ss, x ∈ childrenAtLevel st3 K 3) →
      ∀ r ∈ childrenAtLevel st3 K 3,
        cond4 (st3.map (pmap (cond4 st3) (fun r => setLevel r 4) ss)) r =
          cond4 st3 r := by
    intro ss hss r hr
    rcases mem_childrenAtLevel.mp hr with ⟨hrmem, _, hrK⟩
    rw [cond4, cond4, childrenAtLevel_map_untouched st3 K r.sponsorId 3 _
      (fun v _ => pmap_sponsorBy (cond4 st3) (fun r => setLevel r 4)
        (fun r => rfl) ss v) ?_
      (hKne r hrmem hrK)]
    intro v _ hv
    exact (mem_childrenAtLevel.mp (hss v (pmap_mem_of_ne _ _ _ _ hv))).2.2
  have h := refLoop_char cond4 (cond4 st3) (fun r => setLevel r 4) st3
    (childrenAtLevel st3 K 3) hids (fun r => rfl)
    (fun r hr => List.mem_of_mem_filter hr) hstable (childrenAtLevel st3 K 3) [] rfl 0
  rw [map_pmap_nil] at h
  rw [h]
  congr 1
  · refine List.map_eq_map_iff.mpr ?_
    intro v hv
    rw [pmap, phi4]
    by_cases hvk : v.level = 3 ∧ v.sponsorBy = K ∧ cond4 st3 v = true
    · rw [if_pos ⟨mem_childrenAtLevel.mpr ⟨hv, hvk.1, hvk.2.1⟩, hvk.2.2⟩, if_pos hvk]
    · rw [if_neg ?_, if_neg hvk]
      rintro ⟨hmem, hc⟩
      rcases mem_childrenAtLevel.mp hmem with ⟨_, hl, hk⟩
      exact hvk ⟨hl, hk, hc⟩
  · simp

/-- State after the first promotion loop of a frame keyed on `K`. -/
def st2Of (st : DB) (K : String) : DB := st.map (phi2 st K)

/-- State after the second promotion loop. -/
def st3Of (st : DB) (K : String) : DB :=
  (st2Of st K).map (phi3 (st2Of st K) K)

/-- State after the third promotion loop. -/
def st4Of (st : DB) (K : String) : DB :=
  (st3Of st K).map (phi4 (st3Of st K) K)

/-- `totalLevel2Referrals` of a frame keyed on `K`. -/
def t2Of (st : DB) (K : String) : Nat := (childrenOf st K).countP (cond2 st)

/-- `totalLevel3Referrals`. -/
def t3Of (st : DB) (K : String) : Nat :=
  (childrenAtLevel (st2Of st K) K 2).countP (cond3 (st2Of st K))

/-- `totalLevel4Referrals`. -/
def t4Of (st : DB) (K : String) : Nat :=
  (childrenAtLevel (st3Of st K) K 3).countP (cond4 (st3Of st K))

theorem ids_map_preserve (st : DB) (f : RUser → RUser)
    (hf : ∀ v, (f v).id = v.id) :
    (st.map f).map RUser.id = st.map RUser.id := by
  rw [List.map_map]
  exact List.map_eq_map_iff.mpr (fun v _ => hf v)

theorem st2Of_ids (st : DB) (K : String) :
    (st2Of st K).map RUser.id = st.map RUser.id :=
  ids_map_preserve st _ (phi2_id st K)

theorem st3Of_ids (st : DB) (K : String) :
    (st3Of st K).map RUser.id = st.map RUser.id := by
  rw [st3Of, ids_map_preserve _ _ (phi3_id _ K), st2Of_ids]

theorem st4Of_ids (st : DB) (K : String) :
    (st4Of st K).map RUser.id = st.map RUser.id := by
  rw [st4Of, ids_map_preserve _ _ (phi4_id _ K), st3Of_ids]

theorem noself_st2Of (st : DB) (K : String)
    (h : ∀ u ∈ st, u.sponsorBy ≠ u.sponsorId) :
    ∀ u ∈ st2Of st K, u.sponsorBy ≠ u.sponsorId := by
  intro u hu
  rcases List.mem_map.mp hu with ⟨v, hv, rfl⟩
  rw [phi2_sponsorBy, phi2_sponsorId]
  exact h v hv

theorem noself_st3Of (st : DB) (K : String)
    (h : ∀ u ∈ st, u.sponsorBy ≠ u.sponsorId) :
    ∀ u ∈ st3Of st K, u.sponsorBy ≠ u.sponsorId := by
  intro u hu
  rcases List.mem_map.mp hu with ⟨v, hv, rfl⟩
  rw [phi3_sponsorBy, phi3_sponsorId]
  exact noself_st2Of st K h v hv

theorem hKne_of_noself {st : DB} {K : String}
    (h : ∀ u ∈ st, u.sponsorBy ≠ u.sponsorId) :
    ∀ r ∈ st, r.sponsorBy = K → r.sponsorId ≠ K := by
  intro r hr hrB hrI
  exact h r hr (hrB.trans hrI.symm)

/-- Explicit characterization of one engine frame: the three loops act
as the pointwise promotions `phi2`/`phi3`/`phi4`, the counters count
the promoted snapshot entries, and the fetched user document is
updated by `frameUser` and saved. -/
theorem frame_char (st : DB) (i : Nat) (u0 : RUser)
    (hfind : findById st i = some u0)
    (hids : (st.map RUser.id).Nodup)
    (hnoself : ∀ u ∈ st, u.sponsorBy ≠ u.sponsorId) :
    frame st i = (save (st4Of st u0.sponsorId)
        (frameUser u0 (t2Of st u0.sponsorId) (t3Of st u0.sponsorId)
          (t4Of st u0.sponsorId)),
      some (frameUser u0 (t2Of st u0.sponsorId) (t3Of st u0.sponsorId)
        (t4Of st u0.sponsorId))) := by
  have hids2 : ((st2Of st u0.sponsorId).map RUser.id).Nodup := by
    rw [st2Of_ids]; exact hids
  have hids3 : ((st3Of st u0.sponsorId).map RUser.id).Nodup := by
    rw [st3Of_ids]; exact hids
  rw [frame, hfind]
  simp only []
  rw [loop2_char st u0.sponsorId hids]
  rw [show st.map (phi2 st u0.sponsorId) = st2Of st u0.sponsorId from rfl]
  rw [show (childrenOf st u0.sponsorId).countP (cond2 st) = t2Of st u0.sponsorId
    from rfl]
  rw [loop3_char (st2Of st u0.sponsorId) u0.sponsorId hids2
    (hKne_of_noself (noself_st2Of st u0.sponsorId hnoself))]
  rw [show (st2Of st u0.sponsorId).map (phi3 (st2Of st u0.sponsorId) u0.sponsorId) =
    st3Of st u0.sponsorId from rfl]
  rw [show (childrenAtLevel (st2Of st u0.sponsorId) u0.sponsorId 2).countP
    (cond3 (st2Of st u0.sponsorId)) = t3Of st u0.sponsorId from rfl]
  rw [loop4_char (st3Of st u0.sponsorId) u0.sponsorId hids3
    (hKne_of_noself (noself_st3Of st u0.sponsorId hnoself))]
  rw [show (st3Of st u0.sponsorId).map (phi4 (st3Of st u0.sponsorId) u0.sponsorId) =
    st4Of st u0.sponsorId from rfl]
  rw [show (childrenAtLevel (st3Of st u0.sponsorId) u0.sponsorId 3).countP
    (cond4 (st3Of st u0.sponsorId)) = t4Of st u0.sponsorId from rfl]

/-- Record `b` is record `a` with a possibly higher level and all other
fields unchanged. -/
def CoreLe (a b : RUser) : Prop := b = setLevel a b.level ∧ a.level ≤ b.level

theorem coreLe_refl (a : RUser) : CoreLe a a :=
  ⟨(setLevel_self a).symm, le_refl _⟩

theorem coreLe_trans {a b c : RUser} (h1 : CoreLe a b) (h2 : CoreLe b c) :
    CoreLe a c := by
  refine ⟨?_, le_trans h1.2 h2.2⟩
  calc c = setLevel b c.level := h2.1
    _ = setLevel (setLevel a b.level) c.level := by rw [← h1.1]
    _ = setLevel a c.level := setLevel_setLevel _ _ _

theorem coreLe_id {a b : RUser} (h : CoreLe a b) : b.id = a.id := by
  rw [h.1, setLevel_id]

theorem coreLe_sponsorBy {a b : RUser} (h : CoreLe a b) :
    b.sponsorBy = a.sponsorBy := by
  rw [h.1, setLevel_sponsorBy]

theorem coreLe_sponsorId {a b : RUser} (h : CoreLe a b) :
    b.sponsorId = a.sponsorId := by
  rw [h.1, setLevel_sponsorId]

theorem cond2_level {st : DB} {v : RUser} (h : cond2 st v = true) : v.level < 2 := by
  rw [cond2] at h
  simpa using ((Bool.and_eq_true _ _).mp h).2

theorem cond3_level {st : DB} {v : RUser} (h : cond3 st v = true) : v.level < 3 := by
  rw [cond3] at h
  simpa using ((Bool.and_eq_true _ _).mp h).2

theorem cond4_level {st : DB} {v : RUser} (h : cond4 st v = true) : v.level < 4 := by
  rw [cond4] at h
  simpa using ((Bool.and_eq_true _ _).mp h).2

theorem phi2_coreLe (st : DB) (K : String) (v : RUser) : CoreLe v (phi2 st K v) := by
  rw [phi2]
  split
  · next h => exact ⟨rfl, le_of_lt (cond2_level h.2)⟩
  · exact coreLe_refl v

theorem phi3_coreLe (st : DB) (K : String) (v : RUser) : CoreLe v (phi3 st K v) := by
  rw [phi3]
  split
  · next h => exact ⟨rfl, le_of_lt (cond3_level h.2.2)⟩
  · exact coreLe_refl v

theorem phi4_coreLe (st : DB) (K : String) (v : RUser) : CoreLe v (phi4 st K v) := by
  rw [phi4]
  split
  · next h => exact ⟨rfl, le_of_lt (cond4_level h.2.2)⟩
  · exact coreLe_refl v

theorem frameUser_core (u0 : RUser) (t2 t3 t4 : Nat) :
    frameUser u0 t2 t3 t4 = setLevel u0 (frameUser u0 t2 t3 t4).level := by
  rw [frameUser, capLevel]
  repeat' split
  all_goals simp [setLevel_setLevel, setLevel_level, setLevel_self]

theorem frameUser_level_ge (u0 : RUser) (t2 t3 t4 : Nat) (h : u0.level ≤ 4) :
    u0.level ≤ (frameUser u0 t2 t3 t4).level := by
  rw [frameUser, capLevel]
  repeat' split
  all_goals simp_all [setLevel_level]
  all_goals omega

theorem frameUser_id (u0 : RUser) (t2 t3 t4 : Nat) :
    (frameUser u0 t2 t3 t4).id = u0.id := by
  rw [frameUser_core u0 t2 t3 t4, setLevel_id]

theorem frameUser_sponsorBy (u0 : RUser) (t2 t3 t4 : Nat) :
    (frameUser u0 t2 t3 t4).sponsorBy = u0.sponsorBy := by
  rw [frameUser_core u0 t2 t3 t4, setLevel_sponsorBy]

theorem forall₂_coreLe_refl (st : DB) : List.Forall₂ CoreLe st st :=
  List.forall₂_same.mpr (fun x _ => coreLe_refl x)

theorem forall₂_coreLe_trans : ∀ {a b c : DB},
    List.Forall₂ CoreLe a b → List.Forall₂ CoreLe b c →
    List.Forall₂ CoreLe a c := by
  intro a b c hab
  induction hab generalizing c with
  | nil => intro hbc; cases hbc; exact List.Forall₂.nil
  | cons h t ih =>
    intro hbc
    cases hbc with
    | cons h2 t2 => exact List.Forall₂.cons (coreLe_trans h h2) (ih t2)

theorem forall₂_coreLe_ids : ∀ {l l' : DB}, List.Forall₂ CoreLe l l' →
    l'.map RUser.id = l.map RUser.id := by
  intro l l' h
  induction h with
  | nil => rfl
  | cons h t ih => simp [coreLe_id h, ih]

theorem forall₂_coreLe_mem_right : ∀ {l l' : DB}, List.Forall₂ CoreLe l l' →
    ∀ {b}, b ∈ l' → ∃ a ∈ l, CoreLe a b := by
  intro l l' h
  induction h with
  | nil => intro b hb; simp at hb
  | cons hR t ih =>
    intro b hb
    rcases List.mem_cons.mp hb with rfl | hb
    · exact ⟨_, List.mem_cons_self _ _, hR⟩
    · rcases ih hb with ⟨a, ha, haR⟩
      exact ⟨a, List.mem_cons_of_mem _ ha, haR⟩

theorem forall₂_coreLe_findById : ∀ {l l' : DB}, List.Forall₂ CoreLe l l' →
    ∀ {i : Nat} {u : RUser}, findById l i = some u →
      ∃ u', findById l' i = some u' ∧ CoreLe u u' := by
  intro l l' h
  induction h with
  | nil => intro i u hu; simp [findById] at hu
  | cons hR t ih =>
    intro i u hu
    rename_i a b l₁ l₂
    rw [findById_cons] at hu
    by_cases ha : (a.id == i) = true
    · rw [if_pos ha] at hu
      refine ⟨b, ?_, ?_⟩
      · rw [findById_cons, if_pos (by rw [coreLe_id hR]; exact ha)]
      · rcases Option.some_inj.mp hu with rfl
        exact hR
    · rw [if_neg (by simp_all)] at hu
      rcases ih hu with ⟨u', h1, h2⟩
      refine ⟨u', ?_, h2⟩
      rw [findById_cons, if_neg (by rw [coreLe_id hR]; simp_all), h1]

theorem forall₂_coreLe_st2Of (st : DB) (K : String) :
    List.Forall₂ CoreLe st (st2Of st K) := by
  rw [st2Of]
  exact List.forall₂_map_right_iff.mpr
    (List.forall₂_same.mpr (fun x _ => phi2_coreLe st K x))

theorem forall₂_coreLe_st3Of (st : DB) (K : String) :
    List.Forall₂ CoreLe st (st3Of st K) := by
  rw [st3Of]
  refine forall₂_coreLe_trans (forall₂_coreLe_st2Of st K) ?_
  exact List.forall₂_map_right_iff.mpr
    (List.forall₂_same.mpr (fun x _ => phi3_coreLe _ K x))

theorem forall₂_coreLe_st4Of (st : DB) (K : String) :
    List.Forall₂ CoreLe st (st4Of st K) := by
  rw [st4Of]
  refine forall₂_coreLe_trans (forall₂_coreLe_st3Of st K) ?_
  exact List.forall₂_map_right_iff.mpr
    (List.forall₂_same.mpr (fun x _ => phi4_coreLe _ K x))

theorem mem_st4Of_id {st : DB} {K : String} {y : RUser}
    (hy : y ∈ st4Of st K) : ∃ x ∈ st, y.id = x.id ∧
      y = phi4 (st3Of st K) K (phi3 (st2Of st K) K (phi2 st K x)) := by
  rw [st4Of, st3Of, st2Of] at hy
  rcases List.mem_map.mp hy with ⟨y3, hy3, rfl⟩
  rcases List.mem_map.mp hy3 with ⟨y2, hy2, rfl⟩
  rcases List.mem_map.mp hy2 with ⟨x, hx, rfl⟩
  refine ⟨x, hx, ?_, rfl⟩
  rw [phi4_id, phi3_id, phi2_id]

theorem phi_fix_u0 (st : DB) (K : String) {u0 : RUser} (hK : K = u0.sponsorId)
    (hnoself : u0.sponsorBy ≠ u0.sponsorId) :
    phi4 (st3Of st K) K (phi3 (st2Of st K) K (phi2 st K u0)) = u0 := by
  have hfix2 : phi2 st K u0 = u0 := by
    rw [phi2, if_neg]
    rintro ⟨hB, _⟩
    exact hnoself (by rw [hB, hK])
  have hfix3 : phi3 (st2Of st K) K u0 = u0 := by
    rw [phi3, if_neg]
    rintro ⟨_, hB, _⟩
    exact hnoself (by rw [hB, hK])
  have hfix4 : phi4 (st3Of st K) K u0 = u0 := by
    rw [phi4, if_neg]
    rintro ⟨_, hB, _⟩
    exact hnoself (by rw [hB, hK])
  rw [hfix2, hfix3, hfix4]

theorem frame_coreLe (st : DB) (i : Nat)
    (hids : (st.map RUser.id).Nodup)
    (hnoself : ∀ u ∈ st, u.sponsorBy ≠ u.sponsorId)
    (hlev4 : ∀ u ∈ st, u.level ≤ 4) :
    List.Forall₂ CoreLe st (frame st i).1 := by
  cases hfind : findById st i with
  | none =>
    rw [frame, hfind]
    exact forall₂_coreLe_refl st
  | some u0 =>
    rw [frame_char st i u0 hfind hids hnoself]
    have hu0mem : u0 ∈ st := findById_mem hfind
    refine forall₂_coreLe_trans (forall₂_coreLe_st4Of st u0.sponsorId) ?_
    rw [save]
    refine List.forall₂_map_right_iff.mpr (List.forall₂_same.mpr ?_)
    intro y hy
    set u5 := frameUser u0 (t2Of st u0.sponsorId) (t3Of st u0.sponsorId)
      (t4Of st u0.sponsorId) with hu5
    by_cases hid : (y.id == u5.id) = true
    · rw [if_pos hid]
      have hyid : y.id = u0.id := by
        have h1 : u5.id = u0.id := frameUser_id _ _ _ _
        have h2 : y.id = u5.id := by simpa using hid
        omega
      rcases mem_st4Of_id hy with ⟨x, hx, hyx, hyphi⟩
      have hxu0 : x = u0 :=
        List.inj_on_of_nodup_map hids hx hu0mem (by omega)
      rw [hxu0] at hyphi
      have hyu0 : y = u0 := by
        rw [hyphi, phi_fix_u0 st u0.sponsorId rfl (hnoself u0 hu0mem)]
      rw [hyu0, hu5]
      exact ⟨frameUser_core u0 _ _ _, frameUser_level_ge u0 _ _ _ (hlev4 u0 hu0mem)⟩
    · rw [if_neg (by simpa using hid)]
      exact coreLe_refl y

theorem frame_preserves_hyps (st : DB) (i : Nat)
    (hids : (st.map RUser.id).Nodup)
    (hnoself : ∀ u ∈ st, u.sponsorBy ≠ u.sponsorId)
    (hlev4 : ∀ u ∈ st, u.level ≤ 4) :
    ((frame st i).1.map RUser.id).Nodup ∧
    (∀ u ∈ (frame st i).1, u.sponsorBy ≠ u.sponsorId) ∧
    (∀ u ∈ (frame st i).1, u.level ≤ 4) := by
  have h := frame_coreLe st i hids hnoself hlev4
  refine ⟨?_, ?_, frame_level_le st i hlev4⟩
  · rw [forall₂_coreLe_ids h]; exact hids
  · intro u hu
    rcases forall₂_coreLe_mem_right h hu with ⟨a, ha, haR⟩
    rw [coreLe_sponsorBy haR, coreLe_sponsorId haR]
    exact hnoself a ha

theorem updateSponsorLevels_coreLe (fuel : Nat) :
    ∀ (st : DB) (start : Nat),
      (st.map RUser.id).Nodup →
      (∀ u ∈ st, u.sponsorBy ≠ u.sponsorId) →
      (∀ u ∈ st, u.level ≤ 4) →
      List.Forall₂ CoreLe st (updateSponsorLevels fuel st start) := by
  induction fuel with
  | zero =>
    intro st start _ _ _
    rw [updateSponsorLevels]
    exact forall₂_coreLe_refl st
  | succ fuel ih =>
    intro st start hids hnoself hlev4
    rw [updateSponsorLevels]
    have h1 := frame_coreLe st start hids hnoself hlev4
    have hpres := frame_preserves_hyps st start hids hnoself hlev4
    cases hf : frame st start with
    | mk st1 uo =>
      rw [hf] at h1 hpres
      cases uo with
      | none => exact h1
      | some user =>
        simp only []
        split
        · cases hpar : findOneBySponsorId st1 user.sponsorBy with
          | some parentSponsor =>
            exact forall₂_coreLe_trans h1
              (ih st1 parentSponsor.id hpres.1 hpres.2.1 hpres.2.2)
          | none => exact h1
        · exact h1

/-- C2 — amended: the engine never demotes.  On a state with unique
ids, no self-sponsoring and all levels at most 4, every user's level
after an engine invocation is at least its level before (the rank can
increase by more than one, but never decreases). -/
theorem claim2_rank_monotone (st : DB) (fuel start : Nat)
    (hids : (st.map RUser.id).Nodup)
    (hnoself : ∀ u ∈ st, u.sponsorBy ≠ u.sponsorId)
    (hlev4 : ∀ u ∈ st, u.level ≤ 4) :
    ∀ i u, findById st i = some u →
      ∃ u', findById (updateSponsorLevels fuel st start) i = some u' ∧
        u.level ≤ u'.level := by
  intro i u hu
  rcases forall₂_coreLe_findById
    (updateSponsorLevels_coreLe fuel st start hids hnoself hlev4) hu with ⟨u', h1, h2⟩
  exact ⟨u', h1, h2.2⟩

/-- Witness for `claim2_rank_monotone` on `exDeepTree`. -/
theorem claim2_rank_monotone_witness :
    (findById (updateSponsorLevels 5 exDeepTree 0) 0).isSome = true := by
  rcases claim2_rank_monotone exDeepTree 5 0 (by decide) (by decide) (by decide) 0
    (mkNode 0 "S" "root" [1, 2, 3] 0) (by decide) with ⟨u', h1, _⟩
  rw [h1]
  rfl

/-- Well-formedness of a referral network state: unique document ids,
unique referral codes, levels within the 0..4 range, and a depth
function certifying that the `sponsorBy` edges form a forest (every
parent is strictly shallower than its child). -/
def Forest (st : DB) (dep : Nat → Nat) : Prop :=
  (st.map RUser.id).Nodup ∧
  (st.map RUser.sponsorId).Nodup ∧
  (∀ u ∈ st, u.level ≤ 4) ∧
  (∀ u ∈ st, ∀ p ∈ st, p.sponsorId = u.sponsorBy → dep p.id < dep u.id)

theorem forest_noself {st : DB} {dep : Nat → Nat} (h : Forest st dep) :
    ∀ u ∈ st, u.sponsorBy ≠ u.sponsorId := by
  intro u hu hself
  exact lt_irrefl _ (h.2.2.2 u hu u hu hself.symm)

theorem forall₂_coreLe_sponsorIds : ∀ {l l' : DB}, List.Forall₂ CoreLe l l' →
    l'.map RUser.sponsorId = l.map RUser.sponsorId := by
  intro l l' h
  induction h with
  | nil => rfl
  | cons h t ih => simp [coreLe_sponsorId h, ih]

theorem forall₂_coreLe_findById_rev : ∀ {l l' : DB}, List.Forall₂ CoreLe l l' →
    ∀ {i : Nat} {u' : RUser}, findById l' i = some u' →
      ∃ u, findById l i = some u ∧ CoreLe u u' := by
  intro l l' h
  induction h with
  | nil => intro i u' hu; simp [findById] at hu
  | cons hR t ih =>
    intro i u' hu
    rename_i a b l₁ l₂
    rw [findById_cons] at hu
    by_cases hb : (b.id == i) = true
    · rw [if_pos hb] at hu
      refine ⟨a, ?_, ?_⟩
      · rw [findById_cons, if_pos (by rw [← coreLe_id hR]; exact hb)]
      · rcases Option.some_inj.mp hu with rfl
        exact hR
    · rw [if_neg (by simp_all)] at hu
      rcases ih hu with ⟨u, h1, h2⟩
      refine ⟨u, ?_, h2⟩
      rw [findById_cons, if_neg (by rw [← coreLe_id hR]; simp_all), h1]

theorem findOne_cons (a : RUser) (l : DB) (c : String) :
    findOneBySponsorId (a :: l) c =
      if a.sponsorId == c then some a else findOneBySponsorId l c := by
  simp only [findOneBySponsorId, List.find?_cons]
  by_cases h : (a.sponsorId == c) = true <;> simp [h]

theorem forall₂_coreLe_findOne : ∀ {l l' : DB}, List.Forall₂ CoreLe l l' →
    ∀ {c : String} {p : RUser}, findOneBySponsorId l c = some p →
      ∃ p', findOneBySponsorId l' c = some p' ∧ CoreLe p p' := by
  intro l l' h
  induction h with
  | nil => intro c p hp; simp [findOneBySponsorId] at hp
  | cons hR t ih =>
    intro c p hp
    rename_i a b l₁ l₂
    rw [findOne_cons] at hp
    by_cases ha : (a.sponsorId == c) = true
    · rw [if_pos ha] at hp
      refine ⟨b, ?_, ?_⟩
      · rw [findOne_cons, if_pos (by rw [coreLe_sponsorId hR]; exact ha)]
      · rcases Option.some_inj.mp hp with rfl
        exact hR
    · rw [if_neg (by simp_all)] at hp
      rcases ih hp with ⟨p', h1, h2⟩
      refine ⟨p', ?_, h2⟩
      rw [findOne_cons, if_neg (by rw [coreLe_sponsorId hR]; simp_all), h1]

theorem forest_of_coreLe {st st' : DB} {dep : Nat → Nat}
    (h : List.Forall₂ CoreLe st st') (hf : Forest st dep)
    (hlev : ∀ u ∈ st', u.level ≤ 4) : Forest st' dep := by
  refine ⟨?_, ?_, hlev, ?_⟩
  · rw [forall₂_coreLe_ids h]; exact hf.1
  · rw [forall₂_coreLe_sponsorIds h]; exact hf.2.1
  · intro u hu p hp hpu
    rcases forall₂_coreLe_mem_right h hu with ⟨a, ha, haR⟩
    rcases forall₂_coreLe_mem_right h hp with ⟨q, hq, hqR⟩
    rw [coreLe_id haR, coreLe_id hqR]
    refine hf.2.2.2 a ha q hq ?_
    rw [← coreLe_sponsorId hqR, ← coreLe_sponsorBy haR]
    exact hpu

theorem frame_preserves_forest {st : DB} {dep : Nat → Nat} (i : Nat)
    (hf : Forest st dep) : Forest (frame st i).1 dep :=
  forest_of_coreLe (frame_coreLe st i hf.1 (forest_noself hf) hf.2.2.1) hf
    (frame_level_le st i hf.2.2.1)

theorem usl_preserves_forest {st : DB} {dep : Nat → Nat} (fuel start : Nat)
    (hf : Forest st dep) : Forest (updateSponsorLevels fuel st start) dep :=
  forest_of_coreLe
    (updateSponsorLevels_coreLe fuel st start hf.1 (forest_noself hf) hf.2.2.1) hf
    (updateSponsorLevels_level_le fuel st start hf.2.2.1)

/-- A state is saturated at node `i` when no promotion rule of a frame
evaluated at `i` can fire: the direct-referral rule is exhausted, every
child with 3 or more children is already at level 2 or more, and no
child at level 2 (resp. 3) has 3 or more level-2 (resp. level-3)
children. -/
def Saturated (st : DB) (i : Nat) : Prop :=
  ∀ u0, findById st i = some u0 →
    (3 ≤ u0.sponsorTree.length → 1 ≤ u0.level) ∧
    u0.level ≤ 4 ∧
    (∀ c ∈ childrenOf st u0.sponsorId,
      (3 ≤ (childrenOf st c.sponsorId).length → 2 ≤ c.level) ∧
      (c.level = 2 → (childrenAtLevel st c.sponsorId 2).length < 3) ∧
      (c.level = 3 → (childrenAtLevel st c.sponsorId 3).length < 3))

theorem cond2_count {st : DB} {v : RUser} (h : cond2 st v = true) :
    3 ≤ (childrenOf st v.sponsorId).length := by
  rw [cond2] at h
  simpa using ((Bool.and_eq_true _ _).mp h).1

theorem cond3_count {st : DB} {v : RUser} (h : cond3 st v = true) :
    3 ≤ (childrenAtLevel st v.sponsorId 2).length := by
  rw [cond3] at h
  simpa using ((Bool.and_eq_true _ _).mp h).1

theorem cond4_count {st : DB} {v : RUser} (h : cond4 st v = true) :
    3 ≤ (childrenAtLevel st v.sponsorId 3).length := by
  rw [cond4] at h
  simpa using ((Bool.and_eq_true _ _).mp h).1

theorem save_self (st : DB) (u : RUser) (hu : u ∈ st)
    (hids : (st.map RUser.id).Nodup) : save st u = st := by
  rw [save]
  have : ∀ v ∈ st, (if v.id == u.id then u else v) = v := by
    intro v hv
    by_cases h : (v.id == u.id) = true
    · rw [if_pos h]
      exact (List.inj_on_of_nodup_map hids hv hu (by simpa using h)).symm
    · rw [if_neg (by simpa using h)]
  rw [List.map_eq_map_iff.mpr this]
  simp

theorem frameUser_noop (u0 : RUser)
    (hs1 : 3 ≤ u0.sponsorTree.length → 1 ≤ u0.level)
    (hs5 : u0.level ≤ 4) :
    frameUser u0 0 0 0 = u0 := by
  have g1 : ¬(3 ≤ u0.sponsorTree.length ∧ u0.level < 1) := by
    rintro ⟨a, b⟩
    have := hs1 a
    omega
  simp only [frameUser, capLevel]
  rw [if_neg g1]
  rw [if_neg (show ¬(3 ≤ 0 ∧ u0.level < 2) by omega)]
  rw [if_neg (show ¬(3 ≤ 0 ∧ u0.level < 3) by omega)]
  rw [if_neg (show ¬(3 ≤ 0 ∧ u0.level < 4) by omega)]
  rw [if_neg (show ¬(4 < u0.level) by omega)]

/-- On a saturated state a frame is a no-op: it returns the state
unchanged together with the (unmodified) fetched user document. -/
theorem sat_noop (st : DB) (i : Nat) (u0 : RUser)
    (hfind : findById st i = some u0)
    (hids : (st.map RUser.id).Nodup)
    (hnoself : ∀ u ∈ st, u.sponsorBy ≠ u.sponsorId)
    (hsat : Saturated st i) :
    frame st i = (st, some u0) := by
  rcases hsat u0 hfind with ⟨hs1, hs5, hchild⟩
  set K := u0.sponsorId with hK
  have h2 : st2Of st K = st := by
    rw [st2Of]
    have : ∀ v ∈ st, phi2 st K v = v := by
      intro v hv
      rw [phi2, if_neg]
      rintro ⟨hB, hc⟩
      have hmem : v ∈ childrenOf st K := mem_childrenOf.mpr ⟨hv, hB⟩
      have := (hchild v hmem).1 (cond2_count hc)
      have := cond2_level hc
      omega
    rw [List.map_eq_map_iff.mpr this]
    simp
  have h3 : st3Of st K = st := by
    rw [st3Of, h2]
    have : ∀ v ∈ st, phi3 st K v = v := by
      intro v hv
      rw [phi3, if_neg]
      rintro ⟨hl, hB, hc⟩
      have hmem : v ∈ childrenOf st K := mem_childrenOf.mpr ⟨hv, hB⟩
      have := (hchild v hmem).2.1 hl
      have := cond3_count hc
      omega
    rw [List.map_eq_map_iff.mpr this]
    simp
  have h4 : st4Of st K = st := by
    rw [st4Of, h3]
    have : ∀ v ∈ st, phi4 st K v = v := by
      intro v hv
      rw [phi4, if_neg]
      rintro ⟨hl, hB, hc⟩
      have hmem : v ∈ childrenOf st K := mem_childrenOf.mpr ⟨hv, hB⟩
      have := (hchild v hmem).2.2 hl
      have := cond4_count hc
      omega
    rw [List.map_eq_map_iff.mpr this]
    simp
  have ht2 : t2Of st K = 0 := by
    rw [t2Of, List.countP_eq_zero]
    intro c hc hcond
    have := (hchild c hc).1 (cond2_count hcond)
    have := cond2_level hcond
    omega
  have ht3 : t3Of st K = 0 := by
    rw [t3Of, h2, List.countP_eq_zero]
    intro c hc hcond
    rcases mem_childrenAtLevel.mp hc with ⟨hcm, hcl, hcB⟩
    have := (hchild c (mem_childrenOf.mpr ⟨hcm, hcB⟩)).2.1 hcl
    have := cond3_count hcond
    omega
  have ht4 : t4Of st K = 0 := by
    rw [t4Of, h3, List.countP_eq_zero]
    intro c hc hcond
    rcases mem_childrenAtLevel.mp hc with ⟨hcm, hcl, hcB⟩
    have := (hchild c (mem_childrenOf.mpr ⟨hcm, hcB⟩)).2.2 hcl
    have := cond4_count hcond
    omega
  rw [frame_char st i u0 hfind hids hnoself, ← hK, h4, ht2, ht3, ht4,
    frameUser_noop u0 hs1 hs5, save_self st u0 (findById_mem hfind) hids]

theorem setLevel_sponsorTree (u : RUser) (l : Nat) :
    (setLevel u l).sponsorTree = u.sponsorTree := rfl

theorem frameUser_sponsorTree (u0 : RUser) (t2 t3 t4 : Nat) :
    (frameUser u0 t2 t3 t4).sponsorTree = u0.sponsorTree := by
  rw [frameUser_core u0 t2 t3 t4, setLevel_sponsorTree]

theorem frameUser_sponsorId (u0 : RUser) (t2 t3 t4 : Nat) :
    (frameUser u0 t2 t3 t4).sponsorId = u0.sponsorId := by
  rw [frameUser_core u0 t2 t3 t4, setLevel_sponsorId]

theorem frameUser_level_pos (u0 : RUser) (t2 t3 t4 : Nat)
    (h : 3 ≤ u0.sponsorTree.length) : 1 ≤ (frameUser u0 t2 t3 t4).level := by
  rw [frameUser, capLevel]
  repeat' split
  all_goals simp_all [setLevel_level]
  all_goals omega

theorem phi2_cases (st : DB) (K : String) (v : RUser) :
    phi2 st K v = v ∨
    (phi2 st K v = setLevel v 2 ∧ v.sponsorBy = K ∧ cond2 st v = true) := by
  rw [phi2]
  split
  · next h => exact Or.inr ⟨rfl, h.1, h.2⟩
  · exact Or.inl rfl

theorem phi3_cases (st : DB) (K : String) (v : RUser) :
    phi3 st K v = v ∨
    (phi3 st K v = setLevel v 3 ∧ v.level = 2 ∧ v.sponsorBy = K ∧
      cond3 st v = true) := by
  rw [phi3]
  split
  · next h => exact Or.inr ⟨rfl, h.1, h.2.1, h.2.2⟩
  · exact Or.inl rfl

theorem phi4_cases (st : DB) (K : String) (v : RUser) :
    phi4 st K v = v ∨
    (phi4 st K v = setLevel v 4 ∧ v.level = 3 ∧ v.sponsorBy = K ∧
      cond4 st v = true) := by
  rw [phi4]
  split
  · next h => exact Or.inr ⟨rfl, h.1, h.2.1, h.2.2⟩
  · exact Or.inl rfl

theorem phi2_ne_sponsorBy {st : DB} {K : String} {v : RUser}
    (h : phi2 st K v ≠ v) : v.sponsorBy = K := by
  rcases phi2_cases st K v with heq | ⟨_, hB, _⟩
  · exact absurd heq h
  · exact hB

theorem phi3_ne_sponsorBy {st : DB} {K : String} {v : RUser}
    (h : phi3 st K v ≠ v) : v.sponsorBy = K := by
  rcases phi3_cases st K v with heq | ⟨_, _, hB, _⟩
  · exact absurd heq h
  · exact hB

theorem phi4_ne_sponsorBy {st : DB} {K : String} {v : RUser}
    (h : phi4 st K v ≠ v) : v.sponsorBy = K := by
  rcases phi4_cases st K v with heq | ⟨_, _, hB, _⟩
  · exact absurd heq h
  · exact hB

theorem findById_map_preserve (st : DB) (i : Nat) (f : RUser → RUser)
    (hf : ∀ v, (f v).id = v.id) :
    findById (st.map f) i = (findById st i).map f := by
  induction st with
  | nil => rfl
  | cons a rest ih =>
    rw [List.map_cons, findById_cons, findById_cons, hf a]
    by_cases h : (a.id == i) = true
    · rw [if_pos h, if_pos h]
      rfl
    · rw [if_neg (by simp_all), if_neg (by simp_all), ih]

theorem childrenOf_map_eq (st : DB) (c : String) (f : RUser → RUser)
    (hf : ∀ v ∈ st, (f v).sponsorBy = v.sponsorBy) :
    childrenOf (st.map f) c = (childrenOf st c).map f := by
  rw [childrenOf, childrenOf, List.filter_map]
  congr 1
  refine List.filter_congr ?_
  intro v hv
  simp [Function.comp, hf v hv]

theorem st4Of_eq_map (st : DB) (K : String) :
    st4Of st K = st.map (fun v =>
      phi4 (st3Of st K) K (phi3 (st2Of st K) K (phi2 st K v))) := by
  rw [st4Of, st3Of, st2Of, List.map_map, List.map_map]
  rfl

/-- The combined effect of the three promotion loops of one frame on a
single record. -/
def phiAll (st : DB) (K : String) (v : RUser) : RUser :=
  phi4 (st3Of st K) K (phi3 (st2Of st K) K (phi2 st K v))

theorem phiAll_id (st : DB) (K : String) (v : RUser) :
    (phiAll st K v).id = v.id := by
  rw [phiAll, phi4_id, phi3_id, phi2_id]

theorem phiAll_sponsorBy (st : DB) (K : String) (v : RUser) :
    (phiAll st K v).sponsorBy = v.sponsorBy := by
  rw [phiAll, phi4_sponsorBy, phi3_sponsorBy, phi2_sponsorBy]

theorem phiAll_sponsorId (st : DB) (K : String) (v : RUser) :
    (phiAll st K v).sponsorId = v.sponsorId := by
  rw [phiAll, phi4_sponsorId, phi3_sponsorId, phi2_sponsorId]

theorem phiAll_coreLe (st : DB) (K : String) (v : RUser) :
    CoreLe v (phiAll st K v) := by
  rw [phiAll]
  exact coreLe_trans (phi2_coreLe st K v)
    (coreLe_trans (phi3_coreLe _ K _) (phi4_coreLe _ K _))

theorem phiAll_u0 (st : DB) (K : String) {u0 : RUser} (hK : K = u0.sponsorId)
    (hnoself : u0.sponsorBy ≠ u0.sponsorId) : phiAll st K u0 = u0 := by
  rw [phiAll]
  exact phi_fix_u0 st K hK hnoself

theorem st4Of_eq_map_phiAll (st : DB) (K : String) :
    st4Of st K = st.map (phiAll st K) :=
  st4Of_eq_map st K

theorem cond2_false {st : DB} {v : RUser} (h : ¬cond2 st v = true)
    (hl : v.level < 2) : (childrenOf st v.sponsorId).length < 3 := by
  by_contra hc
  push_neg at hc
  exact h (by rw [cond2]; simp [hc, hl])

theorem cond3_false {st : DB} {v : RUser} (h : ¬cond3 st v = true)
    (hl : v.level < 3) : (childrenAtLevel st v.sponsorId 2).length < 3 := by
  by_contra hc
  push_neg at hc
  exact h (by rw [cond3]; simp [hc, hl])

theorem cond4_false {st : DB} {v : RUser} (h : ¬cond4 st v = true)
    (hl : v.level < 4) : (childrenAtLevel st v.sponsorId 3).length < 3 := by
  by_contra hc
  push_neg at hc
  exact h (by rw [cond4]; simp [hc, hl])

theorem st4Of_id_u0 {st : DB} {K : String} {u0 : RUser}
    (hids : (st.map RUser.id).Nodup) (hu0 : u0 ∈ st) (hK : K = u0.sponsorId)
    (hns : u0.sponsorBy ≠ u0.sponsorId) :
    ∀ y ∈ st4Of st K, y.id = u0.id → y = u0 := by
  intro y hy hyid
  rw [st4Of_eq_map_phiAll] at hy
  rcases List.mem_map.mp hy with ⟨v, hv, rfl⟩
  have hvid : v.id = u0.id := by rw [← phiAll_id st K v]; exact hyid
  have hvu0 : v = u0 := List.inj_on_of_nodup_map hids hv hu0 hvid
  rw [hvu0, phiAll_u0 st K hK hns]

/-- After a frame evaluated at `i`, the state is saturated at `i`: no
promotion rule at `i` can fire again. -/
theorem frame_saturates (st : DB) (dep : Nat → Nat) (i : Nat) (u0 : RUser)
    (hfind : findById st i = some u0) (hforest : Forest st dep) :
    Saturated (frame st i).1 i := by
  obtain ⟨hids, hsids, hlev4, hdep⟩ := hforest
  have hnoself : ∀ u ∈ st, u.sponsorBy ≠ u.sponsorId :=
    forest_noself ⟨hids, hsids, hlev4, hdep⟩
  have hu0 : u0 ∈ st := findById_mem hfind
  have hu0id : u0.id = i := findById_eq_id hfind
  have hns : u0.sponsorBy ≠ u0.sponsorId := hnoself u0 hu0
  rw [frame_char st i u0 hfind hids hnoself]
  show Saturated (save (st4Of st u0.sponsorId)
    (frameUser u0 (t2Of st u0.sponsorId) (t3Of st u0.sponsorId)
      (t4Of st u0.sponsorId))) i
  set u5 := frameUser u0 (t2Of st u0.sponsorId) (t3Of st u0.sponsorId)
    (t4Of st u0.sponsorId) with hu5def
  have hu5id : u5.id = u0.id := frameUser_id _ _ _ _
  have hu5sid : u5.sponsorId = u0.sponsorId := frameUser_sponsorId _ _ _ _
  have hu5sb : u5.sponsorBy = u0.sponsorBy := frameUser_sponsorBy _ _ _ _
  have hid_u0 : ∀ y ∈ st4Of st u0.sponsorId, y.id = u0.id → y = u0 :=
    st4Of_id_u0 hids hu0 rfl hns
  have hg_sb : ∀ y ∈ st4Of st u0.sponsorId,
      ((fun v => if v.id == u5.id then u5 else v) y).sponsorBy = y.sponsorBy := by
    intro y hy
    by_cases hm : (y.id == u5.id) = true
    · have hyu0 : y = u0 := hid_u0 y hy (by rw [hu5id] at hm; simpa using hm)
      simp only [hm, if_true]
      rw [hu5sb, hyu0]
    · simp [hm]
  have hg_touch : ∀ y ∈ st4Of st u0.sponsorId,
      (fun v => if v.id == u5.id then u5 else v) y ≠ y →
        y.sponsorBy = u0.sponsorBy := by
    intro y hy hne
    by_cases hm : (y.id == u5.id) = true
    · have hyu0 : y = u0 := hid_u0 y hy (by rw [hu5id] at hm; simpa using hm)
      rw [hyu0]
    · exact absurd (by simp [hm]) hne
  have hfind4 : findById (st4Of st u0.sponsorId) i = some u0 := by
    rw [st4Of_eq_map_phiAll,
      findById_map_preserve st i _ (phiAll_id st u0.sponsorId), hfind]
    simp [phiAll_u0 st u0.sponsorId rfl hns]
  have hfound : findById (save (st4Of st u0.sponsorId) u5) i = some u5 :=
    findById_save_found u5 hfind4 (by rw [hu5id, hu0id])
  have hchOf : childrenOf (save (st4Of st u0.sponsorId) u5) u0.sponsorId =
      (childrenOf st u0.sponsorId).map (phiAll st u0.sponsorId) := by
    rw [save, childrenOf_map_eq _ _ _ hg_sb]
    have h1 : childrenOf (st4Of st u0.sponsorId) u0.sponsorId =
        (childrenOf st u0.sponsorId).map (phiAll st u0.sponsorId) := by
      rw [st4Of_eq_map_phiAll]
      exact childrenOf_map_eq st _ _ (fun v _ => phiAll_sponsorBy st _ v)
    rw [h1]
    have : ∀ y ∈ (childrenOf st u0.sponsorId).map (phiAll st u0.sponsorId),
        (fun v => if v.id == u5.id then u5 else v) y = y := by
      intro y hy
      have hy4 : y ∈ st4Of st u0.sponsorId := by
        rw [st4Of_eq_map_phiAll]
        rcases List.mem_map.mp hy with ⟨c, hc, rfl⟩
        exact List.mem_map.mpr ⟨c, (mem_childrenOf.mp hc).1, rfl⟩
      by_cases hm : (y.id == u5.id) = true
      · exfalso
        have hyu0 : y = u0 := hid_u0 y hy4 (by rw [hu5id] at hm; simpa using hm)
        rcases List.mem_map.mp hy with ⟨c, hc, hyc⟩
        have : y.sponsorBy = u0.sponsorId := by
          rw [← hyc, phiAll_sponsorBy]
          exact (mem_childrenOf.mp hc).2
        rw [hyu0] at this
        exact hns this
      · simp [hm]
    rw [List.map_eq_map_iff.mpr this]
    simp
  have hcntOf : ∀ key, (childrenOf (save (st4Of st u0.sponsorId) u5) key).length =
      (childrenOf st key).length := by
    intro key
    rw [save, childrenOf_map_length _ key _ hg_sb, st4Of_eq_map_phiAll,
      childrenOf_map_length st key _ (fun v _ => phiAll_sponsorBy st _ v)]
  have hkeyK : ∀ c ∈ childrenOf st u0.sponsorId, c.sponsorId ≠ u0.sponsorId := by
    intro c hc hcontra
    rcases mem_childrenOf.mp hc with ⟨hcm, hcB⟩
    have : c = u0 := List.inj_on_of_nodup_map hsids hcm hu0 hcontra
    rw [this] at hcB
    exact hns hcB
  have hkeyPB : ∀ c ∈ childrenOf st u0.sponsorId, c.sponsorId ≠ u0.sponsorBy := by
    intro c hc hcontra
    rcases mem_childrenOf.mp hc with ⟨hcm, hcB⟩
    have h1 : dep c.id < dep u0.id := hdep u0 hu0 c hcm hcontra
    have h2 : dep u0.id < dep c.id := hdep c hcm u0 hu0 hcB.symm
    omega
  have hlvl2 : ∀ c ∈ childrenOf st u0.sponsorId,
      childrenAtLevel (save (st4Of st u0.sponsorId) u5) c.sponsorId 2 =
        childrenAtLevel (st2Of st u0.sponsorId) c.sponsorId 2 := by
    intro c hc
    calc childrenAtLevel (save (st4Of st u0.sponsorId) u5) c.sponsorId 2
        = childrenAtLevel (st4Of st u0.sponsorId) c.sponsorId 2 := by
          rw [save]
          exact childrenAtLevel_map_untouched _ u0.sponsorBy c.sponsorId 2 _
            hg_sb hg_touch (hkeyPB c hc)
      _ = childrenAtLevel (st3Of st u0.sponsorId) c.sponsorId 2 := by
          rw [st4Of]
          exact childrenAtLevel_map_untouched _ u0.sponsorId c.sponsorId 2 _
            (fun v _ => phi4_sponsorBy _ _ v)
            (fun v _ h => phi4_ne_sponsorBy h) (hkeyK c hc)
      _ = childrenAtLevel (st2Of st u0.sponsorId) c.sponsorId 2 := by
          rw [st3Of]
          exact childrenAtLevel_map_untouched _ u0.sponsorId c.sponsorId 2 _
            (fun v _ => phi3_sponsorBy _ _ v)
            (fun v _ h => phi3_ne_sponsorBy h) (hkeyK c hc)
  have hlvl3 : ∀ c ∈ childrenOf st u0.sponsorId,
      childrenAtLevel (save (st4Of st u0.sponsorId) u5) c.sponsorId 3 =
        childrenAtLevel (st3Of st u0.sponsorId) c.sponsorId 3 := by
    intro c hc
    calc childrenAtLevel (save (st4Of st u0.sponsorId) u5) c.sponsorId 3
        = childrenAtLevel (st4Of st u0.sponsorId) c.sponsorId 3 := by
          rw [save]
          exact childrenAtLevel_map_untouched _ u0.sponsorBy c.sponsorId 3 _
            hg_sb hg_touch (hkeyPB c hc)
      _ = childrenAtLevel (st3Of st u0.sponsorId) c.sponsorId 3 := by
          rw [st4Of]
          exact childrenAtLevel_map_untouched _ u0.sponsorId c.sponsorId 3 _
            (fun v _ => phi4_sponsorBy _ _ v)
            (fun v _ h => phi4_ne_sponsorBy h) (hkeyK c hc)
  intro u0' hfind'
  have hu0'u5 : u0' = u5 := by
    rw [hfound] at hfind'
    exact (Option.some_inj.mp hfind').symm
  subst hu0'u5
  refine ⟨?_, frameUser_level_le _ _ _ _, ?_⟩
  · intro hlen
    rw [hu5def]
    refine frameUser_level_pos u0 _ _ _ ?_
    rw [hu5def, frameUser_sponsorTree] at hlen
    exact hlen
  · rw [hu5sid, hchOf]
    intro c' hc'
    rcases List.mem_map.mp hc' with ⟨c, hc, rfl⟩
    have hcB : c.sponsorBy = u0.sponsorId := (mem_childrenOf.mp hc).2
    have hc2sb : (phi2 st u0.sponsorId c).sponsorBy = u0.sponsorId := by
      rw [phi2_sponsorBy]; exact hcB
    have hc3sb : (phi3 (st2Of st u0.sponsorId) u0.sponsorId
        (phi2 st u0.sponsorId c)).sponsorBy = u0.sponsorId := by
      rw [phi3_sponsorBy]; exact hc2sb
    refine ⟨?_, ?_, ?_⟩
    · intro hcnt
      rw [phiAll_sponsorId, hcntOf] at hcnt
      by_cases hcl : 2 ≤ c.level
      · exact le_trans hcl (phiAll_coreLe st u0.sponsorId c).2
      · push_neg at hcl
        have hcond : cond2 st c = true := by
          rw [cond2]; simp [hcnt, hcl]
        have hfire : phi2 st u0.sponsorId c = setLevel c 2 := by
          rw [phi2, if_pos ⟨hcB, hcond⟩]
        have h3 : (2 : Nat) ≤ (phi3 (st2Of st u0.sponsorId) u0.sponsorId
            (setLevel c 2)).level := by
          have := (phi3_coreLe (st2Of st u0.sponsorId) u0.sponsorId
            (setLevel c 2)).2
          simpa [setLevel_level] using this
        have h4 := (phi4_coreLe (st3Of st u0.sponsorId) u0.sponsorId
          (phi3 (st2Of st u0.sponsorId) u0.sponsorId (setLevel c 2))).2
        rw [phiAll, hfire]
        omega
    · intro hcl'
      rw [phiAll_sponsorId, hlvl2 c hc]
      rw [phiAll] at hcl'
      by_cases hg3 : (phi2 st u0.sponsorId c).level = 2 ∧
          (phi2 st u0.sponsorId c).sponsorBy = u0.sponsorId ∧
          cond3 (st2Of st u0.sponsorId) (phi2 st u0.sponsorId c) = true
      · exfalso
        have hfire3 : phi3 (st2Of st u0.sponsorId) u0.sponsorId
            (phi2 st u0.sponsorId c) = setLevel (phi2 st u0.sponsorId c) 3 := by
          rw [phi3, if_pos hg3]
        rw [hfire3] at hcl'
        rcases phi4_cases (st3Of st u0.sponsorId) u0.sponsorId
            (setLevel (phi2 st u0.sponsorId c) 3) with h4 | ⟨h4, _, _, _⟩
        · rw [h4, setLevel_level] at hcl'
          omega
        · rw [h4, setLevel_level] at hcl'
          omega
      · have hskip3 : phi3 (st2Of st u0.sponsorId) u0.sponsorId
            (phi2 st u0.sponsorId c) = phi2 st u0.sponsorId c := by
          rw [phi3, if_neg hg3]
        rw [hskip3] at hcl'
        by_cases hg4 : (phi2 st u0.sponsorId c).level = 3 ∧
            (phi2 st u0.sponsorId c).sponsorBy = u0.sponsorId ∧
            cond4 (st3Of st u0.sponsorId) (phi2 st u0.sponsorId c) = true
        · exfalso
          have hfire4 : phi4 (st3Of st u0.sponsorId) u0.sponsorId
              (phi2 st u0.sponsorId c) = setLevel (phi2 st u0.sponsorId c) 4 := by
            rw [phi4, if_pos hg4]
          rw [hfire4, setLevel_level] at hcl'
          omega
        · have hskip4 : phi4 (st3Of st u0.sponsorId) u0.sponsorId
              (phi2 st u0.sponsorId c) = phi2 st u0.sponsorId c := by
            rw [phi4, if_neg hg4]
          rw [hskip4] at hcl'
          have hcond3 : ¬cond3 (st2Of st u0.sponsorId)
              (phi2 st u0.sponsorId c) = true := by
            intro hcontra
            exact hg3 ⟨hcl', hc2sb, hcontra⟩
          have := cond3_false hcond3 (by omega)
          rw [phi2_sponsorId] at this
          exact this
    · intro hcl'
      rw [phiAll_sponsorId, hlvl3 c hc]
      rw [phiAll] at hcl'
      by_cases hg4 : (phi3 (st2Of st u0.sponsorId) u0.sponsorId
            (phi2 st u0.sponsorId c)).level = 3 ∧
          (phi3 (st2Of st u0.sponsorId) u0.sponsorId
            (phi2 st u0.sponsorId c)).sponsorBy = u0.sponsorId ∧
          cond4 (st3Of st u0.sponsorId) (phi3 (st2Of st u0.sponsorId)
            u0.sponsorId (phi2 st u0.sponsorId c)) = true
      · exfalso
        have hfire4 : phi4 (st3Of st u0.sponsorId) u0.sponsorId
            (phi3 (st2Of st u0.sponsorId) u0.sponsorId (phi2 st u0.sponsorId c)) =
            setLevel (phi3 (st2Of st u0.sponsorId) u0.sponsorId
              (phi2 st u0.sponsorId c)) 4 := by
          rw [phi4, if_pos hg4]
        rw [hfire4, setLevel_level] at hcl'
        omega
      · have hskip4 : phi4 (st3Of st u0.sponsorId) u0.sponsorId
            (phi3 (st2Of st u0.sponsorId) u0.sponsorId (phi2 st u0.sponsorId c)) =
            phi3 (st2Of st u0.sponsorId) u0.sponsorId (phi2 st u0.sponsorId c) := by
          rw [phi4, if_neg hg4]
        rw [hskip4] at hcl'
        have hcond4 : ¬cond4 (st3Of st u0.sponsorId)
            (phi3 (st2Of st u0.sponsorId) u0.sponsorId
              (phi2 st u0.sponsorId c)) = true := by
          intro hcontra
          exact hg4 ⟨hcl', hc3sb, hcontra⟩
        have := cond4_false hcond4 (by omega)
        rw [phi3_sponsorId, phi2_sponsorId] at this
        exact this

theorem childrenOf_map_untouched (st : DB) (K key : String)
    (f : RUser → RUser)
    (hsb : ∀ v ∈ st, (f v).sponsorBy = v.sponsorBy)
    (htouch : ∀ v ∈ st, f v ≠ v → v.sponsorBy = K)
    (hne : key ≠ K) :
    childrenOf (st.map f) key = childrenOf st key := by
  have hne2 : K ≠ key := fun h => hne h.symm
  rw [childrenOf, childrenOf, List.filter_map]
  have hpf : ∀ v ∈ st, ((fun u => u.sponsorBy == key) ∘ f) v =
      (fun u => u.sponsorBy == key) v := by
    intro v hv
    simp [Function.comp, hsb v hv]
  rw [List.filter_congr hpf]
  have hfix : ∀ x ∈ st.filter (fun u => u.sponsorBy == key), f x = x := by
    intro x hx
    have hp := List.of_mem_filter hx
    have hxk : x.sponsorBy = key := by simpa using hp
    by_contra hfx
    exact hne2 (by rw [← htouch x (List.mem_of_mem_filter hx) hfx, hxk])
  calc (st.filter (fun u => u.sponsorBy == key)).map f
      = (st.filter (fun u => u.sponsorBy == key)).map (fun v => v) :=
        List.map_eq_map_iff.mpr hfix
    _ = st.filter (fun u => u.sponsorBy == key) := by simp

/-- A frame evaluated at a strictly shallower node `j` preserves
saturation at `i`: it can raise the level of the record `i` itself (as
a child of `j`), but touches neither the children nor the grandchildren
of `i`. -/
theorem sat_preserved (st : DB) (dep : Nat → Nat) (i j : Nat)
    (hforest : Forest st dep) (hdep_ij : dep j < dep i)
    (hsat : Saturated st i) :
    Saturated (frame st j).1 i := by
  obtain ⟨hids, hsids, hlev4, hdep⟩ := hforest
  have hnoself : ∀ u ∈ st, u.sponsorBy ≠ u.sponsorId :=
    forest_noself ⟨hids, hsids, hlev4, hdep⟩
  have hlev4' : ∀ u ∈ (frame st j).1, u.level ≤ 4 := frame_level_le st j hlev4
  have hrel : List.Forall₂ CoreLe st (frame st j).1 :=
    frame_coreLe st j hids hnoself hlev4
  cases hfindj : findById st j with
  | none =>
    rw [frame, hfindj]
    exact hsat
  | some w0 =>
    have hw0 : w0 ∈ st := findById_mem hfindj
    have hw0id : w0.id = j := findById_eq_id hfindj
    have hnsw : w0.sponsorBy ≠ w0.sponsorId := hnoself w0 hw0
    rw [frame_char st j w0 hfindj hids hnoself] at hrel hlev4' ⊢
    show Saturated (save (st4Of st w0.sponsorId)
      (frameUser w0 (t2Of st w0.sponsorId) (t3Of st w0.sponsorId)
        (t4Of st w0.sponsorId))) i
    set w5 := frameUser w0 (t2Of st w0.sponsorId) (t3Of st w0.sponsorId)
      (t4Of st w0.sponsorId) with hw5def
    have hw5id : w5.id = w0.id := frameUser_id _ _ _ _
    have hw5sb : w5.sponsorBy = w0.sponsorBy := frameUser_sponsorBy _ _ _ _
    have hid_w0 : ∀ y ∈ st4Of st w0.sponsorId, y.id = w0.id → y = w0 :=
      st4Of_id_u0 hids hw0 rfl hnsw
    have hg_sb : ∀ y ∈ st4Of st w0.sponsorId,
        ((fun v => if v.id == w5.id then w5 else v) y).sponsorBy = y.sponsorBy := by
      intro y hy
      by_cases hm : (y.id == w5.id) = true
      · have hyw0 : y = w0 := hid_w0 y hy (by rw [hw5id] at hm; simpa using hm)
        simp only [hm, if_true]
        rw [hw5sb, hyw0]
      · simp [hm]
    have hg_touch : ∀ y ∈ st4Of st w0.sponsorId,
        (fun v => if v.id == w5.id then w5 else v) y ≠ y →
          y.sponsorBy = w0.sponsorBy := by
      intro y hy hne
      by_cases hm : (y.id == w5.id) = true
      · have hyw0 : y = w0 := hid_w0 y hy (by rw [hw5id] at hm; simpa using hm)
        rw [hyw0]
      · exact absurd (by simp [hm]) hne
    intro u0' hfind'
    rcases forall₂_coreLe_findById_rev hrel hfind' with ⟨u0, hfind0, hcore⟩
    rcases hsat u0 hfind0 with ⟨hs1, _, hchild⟩
    have hu0 : u0 ∈ st := findById_mem hfind0
    have hu0id : u0.id = i := findById_eq_id hfind0
    have hKne1 : u0.sponsorId ≠ w0.sponsorId := by
      intro h
      have he : u0 = w0 := List.inj_on_of_nodup_map hsids hu0 hw0 h
      have : dep j < dep j := by
        have h2 : u0.id = w0.id := by rw [he]
        rw [h2, hw0id] at hu0id
        rw [← hu0id] at hdep_ij
        exact hdep_ij
      omega
    have hKne2 : u0.sponsorId ≠ w0.sponsorBy := by
      intro h
      have h1 : dep u0.id < dep w0.id := hdep w0 hw0 u0 hu0 h
      rw [hu0id, hw0id] at h1
      omega
    have hchUnch : childrenOf (save (st4Of st w0.sponsorId) w5) u0.sponsorId =
        childrenOf st u0.sponsorId := by
      calc childrenOf (save (st4Of st w0.sponsorId) w5) u0.sponsorId
          = childrenOf (st4Of st w0.sponsorId) u0.sponsorId := by
            rw [save]
            exact childrenOf_map_untouched _ w0.sponsorBy u0.sponsorId _
              hg_sb hg_touch hKne2
        _ = childrenOf (st3Of st w0.sponsorId) u0.sponsorId := by
            rw [st4Of]
            exact childrenOf_map_untouched _ w0.sponsorId u0.sponsorId _
              (fun v _ => phi4_sponsorBy _ _ v)
              (fun v _ h => phi4_ne_sponsorBy h) hKne1
        _ = childrenOf (st2Of st w0.sponsorId) u0.sponsorId := by
            rw [st3Of]
            exact childrenOf_map_untouched _ w0.sponsorId u0.sponsorId _
              (fun v _ => phi3_sponsorBy _ _ v)
              (fun v _ h => phi3_ne_sponsorBy h) hKne1
        _ = childrenOf st u0.sponsorId := by
            rw [st2Of]
            exact childrenOf_map_untouched _ w0.sponsorId u0.sponsorId _
              (fun v _ => phi2_sponsorBy _ _ v)
              (fun v _ h => phi2_ne_sponsorBy h) hKne1
    have hcntOf : ∀ key, (childrenOf (save (st4Of st w0.sponsorId) w5) key).length =
        (childrenOf st key).length := by
      intro key
      rw [save, childrenOf_map_length _ key _ hg_sb, st4Of_eq_map_phiAll,
        childrenOf_map_length st key _ (fun v _ => phiAll_sponsorBy st _ v)]
    have hgkey : ∀ c ∈ childrenOf st u0.sponsorId,
        c.sponsorId ≠ w0.sponsorId ∧ c.sponsorId ≠ w0.sponsorBy := by
      intro c hc
      rcases mem_childrenOf.mp hc with ⟨hcm, hcB⟩
      constructor
      · intro h
        have he : c = w0 := List.inj_on_of_nodup_map hsids hcm hw0 h
        rw [he] at hcB
        have h1 : dep u0.id < dep w0.id := hdep w0 hw0 u0 hu0 hcB.symm
        rw [hu0id, hw0id] at h1
        omega
      · intro h
        have h1 : dep c.id < dep w0.id := hdep w0 hw0 c hcm h
        have h2 : dep u0.id < dep c.id := hdep c hcm u0 hu0 hcB.symm
        rw [hu0id] at h2
        rw [hw0id] at h1
        omega
    have hlvlUnch : ∀ c ∈ childrenOf st u0.sponsorId, ∀ l : Nat,
        childrenAtLevel (save (st4Of st w0.sponsorId) w5) c.sponsorId l =
          childrenAtLevel st c.sponsorId l := by
      intro c hc l
      rcases hgkey c hc with ⟨hne1, hne2⟩
      calc childrenAtLevel (save (st4Of st w0.sponsorId) w5) c.sponsorId l
          = childrenAtLevel (st4Of st w0.sponsorId) c.sponsorId l := by
            rw [save]
            exact childrenAtLevel_map_untouched _ w0.sponsorBy c.sponsorId l _
              hg_sb hg_touch hne2
        _ = childrenAtLevel (st3Of st w0.sponsorId) c.sponsorId l := by
            rw [st4Of]
            exact childrenAtLevel_map_untouched _ w0.sponsorId c.sponsorId l _
              (fun v _ => phi4_sponsorBy _ _ v)
              (fun v _ h => phi4_ne_sponsorBy h) hne1
        _ = childrenAtLevel (st2Of st w0.sponsorId) c.sponsorId l := by
            rw [st3Of]
            exact childrenAtLevel_map_untouched _ w0.sponsorId c.sponsorId l _
              (fun v _ => phi3_sponsorBy _ _ v)
              (fun v _ h => phi3_ne_sponsorBy h) hne1
        _ = childrenAtLevel st c.sponsorId l := by
            rw [st2Of]
            exact childrenAtLevel_map_untouched _ w0.sponsorId c.sponsorId l _
              (fun v _ => phi2_sponsorBy _ _ v)
              (fun v _ h => phi2_ne_sponsorBy h) hne1
    refine ⟨?_, hlev4' u0' (findById_mem hfind'), ?_⟩
    · intro hlen
      have htree : u0'.sponsorTree = u0.sponsorTree := by
        rw [hcore.1, setLevel_sponsorTree]
      rw [htree] at hlen
      exact le_trans (hs1 hlen) hcore.2
    · have hsid : u0'.sponsorId = u0.sponsorId := coreLe_sponsorId hcore
      rw [hsid, hchUnch]
      intro c hc
      refine ⟨?_, ?_, ?_⟩
      · intro hcnt
        rw [hcntOf] at hcnt
        exact (hchild c hc).1 hcnt
      · intro hcl
        rw [hlvlUnch c hc 2]
        exact (hchild c hc).2.1 hcl
      · intro hcl
        rw [hlvlUnch c hc 3]
        exact (hchild c hc).2.2 hcl

theorem findById_st4Of {st : DB} {K : String} {j : Nat} {w0 : RUser}
    (hfind : findById st j = some w0) (hK : K = w0.sponsorId)
    (hns : w0.sponsorBy ≠ w0.sponsorId) :
    findById (st4Of st K) j = some w0 := by
  rw [st4Of_eq_map_phiAll, findById_map_preserve st j _ (phiAll_id st K), hfind]
  simp [phiAll_u0 st K hK hns]

theorem frame_some_found (st : DB) (j : Nat)
    (hids : (st.map RUser.id).Nodup)
    (hnoself : ∀ u ∈ st, u.sponsorBy ≠ u.sponsorId) :
    ∀ {st1 : DB} {user : RUser}, frame st j = (st1, some user) →
      findById st1 j = some user := by
  intro st1 user hf
  cases hfind : findById st j with
  | none =>
    rw [frame, hfind] at hf
    simp at hf
  | some w0 =>
    rw [frame_char st j w0 hfind hids hnoself] at hf
    obtain ⟨h1, h2⟩ := Prod.mk.injEq _ _ _ _ ▸ hf
    rcases Option.some_inj.mp h2 with rfl
    rw [← h1]
    exact findById_save_found _
      (findById_st4Of hfind rfl (hnoself w0 (findById_mem hfind)))
      (by rw [frameUser_id]; exact findById_eq_id hfind)

theorem findOne_mem {st : DB} {c : String} {p : RUser}
    (h : findOneBySponsorId st c = some p) : p ∈ st :=
  List.mem_of_find?_eq_some h

theorem findOne_eq_sid {st : DB} {c : String} {p : RUser}
    (h : findOneBySponsorId st c = some p) : p.sponsorId = c := by
  have := List.find?_some h
  simpa using this

/-- The upward walk of the engine, started at a node strictly
shallower than `i`, preserves saturation at `i`. -/
theorem usl_preserves_sat (fuel : Nat) :
    ∀ (st : DB) (dep : Nat → Nat) (i j : Nat),
      Forest st dep → dep j < dep i → Saturated st i →
      Saturated (updateSponsorLevels fuel st j) i := by
  induction fuel with
  | zero =>
    intro st dep i j _ _ hsat
    rw [updateSponsorLevels]
    exact hsat
  | succ fuel ih =>
    intro st dep i j hforest hdepij hsat
    rw [updateSponsorLevels]
    have hsat1 : Saturated (frame st j).1 i := sat_preserved st dep i j hforest hdepij hsat
    have hforest1 : Forest (frame st j).1 dep := frame_preserves_forest j hforest
    cases hf : frame st j with
    | mk st1 uo =>
      rw [hf] at hsat1 hforest1
      cases uo with
      | none => exact hsat1
      | some user =>
        simp only []
        have huser : findById st1 j = some user :=
          frame_some_found st j hforest.1 (forest_noself hforest) hf
        split
        · cases hpar : findOneBySponsorId st1 user.sponsorBy with
          | some p =>
            have hdp : dep p.id < dep j := by
              have := hforest1.2.2.2 user (findById_mem huser) p (findOne_mem hpar)
                (findOne_eq_sid hpar)
              rwa [findById_eq_id huser] at this
            exact ih st1 dep i p.id hforest1 (lt_trans hdp hdepij) hsat1
          | none => exact hsat1
        · exact hsat1

/-- C4 — idempotent leveling.  On a well-formed network state (unique
ids, unique referral codes, levels within 0..4, and acyclic `sponsorBy`
edges certified by a depth function), running `updateSponsorLevels` a
second time from the same starting node with the same fuel changes
nothing: the second run returns the first run's state unchanged. -/
theorem claim4_leveling_idempotent (fuel : Nat) :
    ∀ (st : DB) (dep : Nat → Nat) (start : Nat), Forest st dep →
      updateSponsorLevels fuel (updateSponsorLevels fuel st start) start =
        updateSponsorLevels fuel st start := by
  induction fuel with
  | zero =>
    intro st dep start _
    rw [updateSponsorLevels, updateSponsorLevels]
  | succ fuel ih =>
    intro st dep start hforest
    have hnoself := forest_noself hforest
    cases hfind : findById st start with
    | none =>
      have hfr : frame st start = (st, none) := by rw [frame, hfind]
      have hrun1 : updateSponsorLevels (fuel + 1) st start = st := by
        rw [updateSponsorLevels, hfr]
      rw [hrun1]
      exact hrun1
    | some u0 =>
      have hchar := frame_char st start u0 hfind hforest.1 hnoself
      have hforest1 : Forest (save (st4Of st u0.sponsorId)
          (frameUser u0 (t2Of st u0.sponsorId) (t3Of st u0.sponsorId)
            (t4Of st u0.sponsorId))) dep := by
        have := frame_preserves_forest start hforest
        rwa [hchar] at this
      have hsat1 : Saturated (save (st4Of st u0.sponsorId)
          (frameUser u0 (t2Of st u0.sponsorId) (t3Of st u0.sponsorId)
            (t4Of st u0.sponsorId))) start := by
        have := frame_saturates st dep start u0 hfind hforest
        rwa [hchar] at this
      have hfound1 : findById (save (st4Of st u0.sponsorId)
          (frameUser u0 (t2Of st u0.sponsorId) (t3Of st u0.sponsorId)
            (t4Of st u0.sponsorId))) start = some (frameUser u0
          (t2Of st u0.sponsorId) (t3Of st u0.sponsorId) (t4Of st u0.sponsorId)) :=
        frame_some_found st start hforest.1 hnoself hchar
      set u5 := frameUser u0 (t2Of st u0.sponsorId) (t3Of st u0.sponsorId)
        (t4Of st u0.sponsorId) with hu5
      set st1 := save (st4Of st u0.sponsorId) u5 with hst1
      have hu5start : u5.id = start := by
        rw [hu5, frameUser_id]
        exact findById_eq_id hfind
      by_cases hroot : u5.sponsorBy = "root"
      · have hrun1 : updateSponsorLevels (fuel + 1) st start = st1 := by
          rw [updateSponsorLevels, hchar]
          simp [hroot]
        rw [hrun1]
        have hfr2 : frame st1 start = (st1, some u5) :=
          sat_noop st1 start u5 hfound1 hforest1.1 (forest_noself hforest1) hsat1
        rw [updateSponsorLevels, hfr2]
        simp [hroot]
      · cases hpar : findOneBySponsorId st1 u5.sponsorBy with
        | none =>
          have hrun1 : updateSponsorLevels (fuel + 1) st start = st1 := by
            rw [updateSponsorLevels, hchar]
            simp [hroot, hpar]
          rw [hrun1]
          have hfr2 : frame st1 start = (st1, some u5) :=
            sat_noop st1 start u5 hfound1 hforest1.1 (forest_noself hforest1) hsat1
          rw [updateSponsorLevels, hfr2]
          simp [hroot, hpar]
        | some p =>
          have hdp : dep p.id < dep start := by
            have := hforest1.2.2.2 u5 (findById_mem hfound1) p (findOne_mem hpar)
              (findOne_eq_sid hpar)
            rwa [hu5start] at this
          have hrun1 : updateSponsorLevels (fuel + 1) st start =
              updateSponsorLevels fuel st1 p.id := by
            rw [updateSponsorLevels, hchar]
            simp [hroot, hpar]
          rw [hrun1]
          have hforestR : Forest (updateSponsorLevels fuel st1 p.id) dep :=
            usl_preserves_forest fuel p.id hforest1
          have hsatR : Saturated (updateSponsorLevels fuel st1 p.id) start :=
            usl_preserves_sat fuel st1 dep start p.id hforest1 hdp hsat1
          have hrelR : List.Forall₂ CoreLe st1 (updateSponsorLevels fuel st1 p.id) :=
            updateSponsorLevels_coreLe fuel st1 p.id hforest1.1
              (forest_noself hforest1) hforest1.2.2.1
          rcases forall₂_coreLe_findById hrelR hfound1 with ⟨u5R, hfoundR, hcoreR⟩
          have hfr2 : frame (updateSponsorLevels fuel st1 p.id) start =
              (updateSponsorLevels fuel st1 p.id, some u5R) :=
            sat_noop _ start u5R hfoundR hforestR.1 (forest_noself hforestR) hsatR
          rcases forall₂_coreLe_findOne hrelR hpar with ⟨p', hpar', hcorep⟩
          rw [updateSponsorLevels, hfr2]
          simp only []
          rw [coreLe_sponsorBy hcoreR]
          rw [if_pos hroot, hpar']
          show updateSponsorLevels fuel (updateSponsorLevels fuel st1 p.id) p'.id =
            updateSponsorLevels fuel st1 p.id
          rw [coreLe_id hcorep]
          exact ih st1 dep p.id hforest1

/-- A depth function for `exDeepTree`: the root-sponsored node at
depth 0, its children at depth 1, grandchildren at depth 2. -/
def exDepFun : Nat → Nat := fun n => if n = 0 then 0 else if n ≤ 3 then 1 else 2

/-- Witness for `claim4_leveling_idempotent` on `exDeepTree`. -/
theorem claim4_leveling_idempotent_witness :
    updateSponsorLevels 5 (updateSponsorLevels 5 exDeepTree 0) 0 =
      updateSponsorLevels 5 exDeepTree 0 :=
  claim4_leveling_idempotent 5 exDeepTree exDepFun 0 (by
    refine ⟨by decide, by decide, by decide, ?_⟩
    decide)
